import Mathlib

/-!
Material subsystem of the path tracer (include/material.h).

A shallow embedding of `material.h`.  The C++ `double` is read as an element of a
linearly ordered field `K` (the theorems that need square roots or integrals are
stated at `K = ℝ`), the calls to the random source are an explicit argument, and
the `scatter_record&` out-parameter is passed in and returned.
-/

namespace RayTracer

/-! ## Collaborators that material.h includes but that are not among the sources -/

/-- Functions of the C math library and the constant `pi` that material.h uses;
they are a parameter of the embedding. -/
structure numerics (K : Type) where
  sqrt : K → K
  atan : K → K
  sin : K → K
  cos : K → K
  pi : K

/-- Modelled from the spec: the three-component vector of vec3.h (math primitives),
missing from the sources. -/
@[ext]
structure vec3 (K : Type) where
  x : K
  y : K
  z : K

/-- Modelled from the spec: the random source of section 6 (`uniform_double`,
`random_unit_vector`), missing from the sources.  The n-th call of each function
made by one material operation returns the n-th entry. -/
structure random_source (K : Type) where
  random_double : ℕ → K
  random_unit_vector : ℕ → vec3 K

/-- Colours are vectors, as in vec3.h. -/
abbrev color (K : Type) := vec3 K

/-- Points are vectors, as in vec3.h. -/
abbrev point3 (K : Type) := vec3 K

section Field

variable {K : Type} [LinearOrderedField K]

instance : Add (vec3 K) := ⟨fun a b => vec3.mk (a.x + b.x) (a.y + b.y) (a.z + b.z)⟩

instance : Sub (vec3 K) := ⟨fun a b => vec3.mk (a.x - b.x) (a.y - b.y) (a.z - b.z)⟩

instance : Neg (vec3 K) := ⟨fun a => vec3.mk (-a.x) (-a.y) (-a.z)⟩

instance : HMul K (vec3 K) (vec3 K) := ⟨fun t a => vec3.mk (t * a.x) (t * a.y) (t * a.z)⟩

/-- Modelled from the spec: vec3.h `dot`, missing from the sources. -/
def dot (a b : vec3 K) : K := a.x * b.x + a.y * b.y + a.z * b.z

/-- Modelled from the spec: vec3.h `cross`, missing from the sources. -/
def cross (a b : vec3 K) : vec3 K :=
  vec3.mk (a.y * b.z - a.z * b.y) (a.z * b.x - a.x * b.z) (a.x * b.y - a.y * b.x)

/-- Modelled from the spec: vec3.h `length_squared`, missing from the sources. -/
def vec3.length_squared (a : vec3 K) : K := a.x * a.x + a.y * a.y + a.z * a.z

/-- Modelled from the spec: vec3.h `length`, missing from the sources. -/
def vec3.length (sqrt : K → K) (a : vec3 K) : K := sqrt a.length_squared

/-- Modelled from the spec: vec3.h `unit_vector` (the spec writes `unit(v)`), the
vector divided by its length; missing from the sources. -/
def unit_vector (sqrt : K → K) (a : vec3 K) : vec3 K := (1 / a.length sqrt) * a

/-- Modelled from the spec: vec3.h `reflect`, the geometric reflection
`v - 2 (v.n) n` of section 8; missing from the sources. -/
def reflect (v n : vec3 K) : vec3 K := v - (2 * dot v n) * n

/-- Modelled from the spec: vec3.h `refract` (section 4.4), missing from the sources:
`r (uv + cos n) - sqrt |1 - |r (uv + cos n)|^2| n` with `cos = min (-uv.n) 1`. -/
def refract (sqrt : K → K) (uv n : vec3 K) (etai_over_etat : K) : vec3 K :=
  let cos_theta := min (dot (-uv) n) 1
  let r_out_perp := etai_over_etat * (uv + cos_theta * n)
  let r_out_parallel := (-(sqrt |1 - r_out_perp.length_squared|)) * n
  r_out_perp + r_out_parallel

/-- The random source after `n` calls of `random_double`. -/
def random_source.after (g : random_source K) (n : ℕ) : random_source K :=
  random_source.mk (fun i => g.random_double (n + i)) g.random_unit_vector

end Field

/-- Modelled from the spec: the ray of ray.h (origin, direction, time), missing from
the sources. -/
structure ray (K : Type) where
  origin : point3 K
  direction : vec3 K
  time : K

/-- Modelled from the spec: the hit record of section 3 (hittable.h), missing from
the sources. -/
structure hit_record (K : Type) where
  p : point3 K
  normal : vec3 K
  t : K
  u : K
  v : K
  front_face : Bool

/-- Modelled from the spec: a texture (texture.h) maps `(u, v, p)` to a colour. -/
abbrev texture (K : Type) := K → K → point3 K → color K

/-- Modelled from the spec: the constant texture `solid_color` of texture.h. -/
def solid_color {K : Type} (albedo : color K) : texture K := fun _ _ _ => albedo

/-- Modelled from the spec: the sampling distributions of pdf.h that the materials
construct (cosine-weighted about a normal, uniform sphere). -/
inductive pdf (K : Type) where
  | cosine_pdf (w : vec3 K)
  | sphere_pdf

/-! ## material.h -/

/-- The class `scatter_record`; `pdf_ptr` is `none` for a null pointer. -/
structure scatter_record (K : Type) where
  attenuation : color K
  pdf_ptr : Option (pdf K)
  skip_pdf : Bool
  skip_pdf_ray : ray K

/-- The class `lambertian`. -/
structure lambertian (K : Type) where
  tex : texture K

/-- The class `metal`; the constructor is `metal.construct`. -/
structure metal (K : Type) where
  albedo : color K
  fuzz : K

/-- The class `dielectric`. -/
structure dielectric (K : Type) where
  refraction_index : K

/-- The class `diffuse_light`. -/
structure diffuse_light (K : Type) where
  tex : texture K

/-- The class `isotropic`. -/
structure isotropic (K : Type) where
  tex : texture K

/-- The class `glossy`. -/
structure glossy (K : Type) where
  albedo : color K
  roughness : K
  specular_strength : K

/-- The class `frosted_glass`. -/
structure frosted_glass (K : Type) where
  refraction_index : K
  roughness : K
  tint : color K

/-- The class `advanced_frosted_glass`. -/
structure advanced_frosted_glass (K : Type) where
  refraction_index : K
  roughness : K
  subsurface_scattering : K
  tint : color K

/-- The dynamic type of a `material` object: the base class or one of its eight
subclasses. -/
inductive material (K : Type) where
  | base
  | of_lambertian (m : lambertian K)
  | of_metal (m : metal K)
  | of_dielectric (m : dielectric K)
  | of_diffuse_light (m : diffuse_light K)
  | of_isotropic (m : isotropic K)
  | of_glossy (m : glossy K)
  | of_frosted_glass (m : frosted_glass K)
  | of_advanced_frosted_glass (m : advanced_frosted_glass K)

section Operations

variable {K : Type} [LinearOrderedField K]

/-- The default `material::emitted`. -/
def material.default_emitted (_r_in : ray K) (_rec : hit_record K) (_u _v : K) (_p : point3 K) :
    color K :=
  vec3.mk 0 0 0

/-- The default `material::scatter`: returns false and does not touch the record. -/
def material.default_scatter (_r_in : ray K) (_rec : hit_record K) (srec : scatter_record K) :
    Bool × scatter_record K :=
  (false, srec)

/-- The default `material::scattering_pdf`. -/
def material.default_scattering_pdf (_r_in : ray K) (_rec : hit_record K) (_scattered : ray K) :
    K :=
  0

/-- The method `lambertian::scatter`. -/
def lambertian.scatter (m : lambertian K) (_r_in : ray K) (rec : hit_record K)
    (srec : scatter_record K) : Bool × scatter_record K :=
  (true, scatter_record.mk (m.tex rec.u rec.v rec.p) (some (pdf.cosine_pdf rec.normal)) false
    srec.skip_pdf_ray)

/-- The method `lambertian::scattering_pdf`. -/
def lambertian.scattering_pdf (sqrt : K → K) (pi : K) (_m : lambertian K) (_r_in : ray K)
    (rec : hit_record K) (scattered : ray K) : K :=
  let cos_theta := dot rec.normal (unit_vector sqrt scattered.direction)
  if cos_theta < 0 then 0 else cos_theta / pi

/-- The constructor `metal::metal` (the fuzz argument is capped at 1). -/
def metal.construct (albedo : color K) (fuzz : K) : metal K :=
  metal.mk albedo (if fuzz < 1 then fuzz else 1)

/-- The method `metal::scatter`. -/
def metal.scatter (sqrt : K → K) (g : random_source K) (m : metal K) (r_in : ray K)
    (rec : hit_record K) (_srec : scatter_record K) : Bool × scatter_record K :=
  let reflected := reflect r_in.direction rec.normal
  let reflected := unit_vector sqrt reflected + m.fuzz * g.random_unit_vector 0
  (true, scatter_record.mk m.albedo none true (ray.mk rec.p reflected r_in.time))

/-- The static method `dielectric::reflectance` (Schlick approximation). -/
def dielectric.reflectance (cosine refraction_index : K) : K :=
  let r0 := (1 - refraction_index) / (1 + refraction_index)
  let r0 := r0 * r0
  r0 + (1 - r0) * (1 - cosine) ^ 5

/-- The local `ri` of `dielectric::scatter`. -/
def dielectric.ri (m : dielectric K) (rec : hit_record K) : K :=
  if rec.front_face then 1 / m.refraction_index else m.refraction_index

/-- The local `cos_theta` of `dielectric::scatter`. -/
def dielectric.cos_theta (sqrt : K → K) (r_in : ray K) (rec : hit_record K) : K :=
  min (dot (-(unit_vector sqrt r_in.direction)) rec.normal) 1

/-- The local `sin_theta` of `dielectric::scatter`. -/
def dielectric.sin_theta (sqrt : K → K) (r_in : ray K) (rec : hit_record K) : K :=
  sqrt (1 - dielectric.cos_theta sqrt r_in rec * dielectric.cos_theta sqrt r_in rec)

/-- The local `direction` of `dielectric::scatter`. -/
def dielectric.direction (sqrt : K → K) (g : random_source K) (m : dielectric K) (r_in : ray K)
    (rec : hit_record K) : vec3 K :=
  let ri := m.ri rec
  let unit_direction := unit_vector sqrt r_in.direction
  let cos_theta := dielectric.cos_theta sqrt r_in rec
  let sin_theta := dielectric.sin_theta sqrt r_in rec
  let cannot_refract : Bool := decide (ri * sin_theta > 1)
  if cannot_refract || decide (dielectric.reflectance cos_theta ri > g.random_double 0) then
    reflect unit_direction rec.normal
  else
    refract sqrt unit_direction rec.normal ri

/-- The method `dielectric::scatter`. -/
def dielectric.scatter (sqrt : K → K) (g : random_source K) (m : dielectric K) (r_in : ray K)
    (rec : hit_record K) (_srec : scatter_record K) : Bool × scatter_record K :=
  (true, scatter_record.mk (vec3.mk 1 1 1) none true
    (ray.mk rec.p (dielectric.direction sqrt g m r_in rec) r_in.time))

/-- The method `diffuse_light::emitted`. -/
def diffuse_light.emitted (m : diffuse_light K) (_r_in : ray K) (rec : hit_record K) (u v : K)
    (p : point3 K) : color K :=
  if !rec.front_face then vec3.mk 0 0 0 else m.tex u v p

/-- The method `isotropic::scatter`. -/
def isotropic.scatter (m : isotropic K) (_r_in : ray K) (rec : hit_record K)
    (srec : scatter_record K) : Bool × scatter_record K :=
  (true, scatter_record.mk (m.tex rec.u rec.v rec.p) (some pdf.sphere_pdf) false
    srec.skip_pdf_ray)

/-- The method `isotropic::scattering_pdf`. -/
def isotropic.scattering_pdf (pi : K) (_m : isotropic K) (_r_in : ray K) (_rec : hit_record K)
    (_scattered : ray K) : K :=
  1 / (4 * pi)

/-- The method `glossy::schlick_approximation`. -/
def glossy.schlick_approximation (sqrt : K → K) (_m : glossy K) (r_in : ray K)
    (normal : vec3 K) : K :=
  let cos_theta := min (dot (-(unit_vector sqrt r_in.direction)) normal) 1
  let r0 : K := 0.04
  r0 + (1 - r0) * (1 - cos_theta) ^ 5

/-- The method `glossy::scatter`. -/
def glossy.scatter (sqrt : K → K) (g : random_source K) (m : glossy K) (r_in : ray K)
    (rec : hit_record K) (srec : scatter_record K) : Bool × scatter_record K :=
  let fresnel := m.schlick_approximation sqrt r_in rec.normal
  if g.random_double 0 < fresnel * m.specular_strength then
    let reflected := reflect (unit_vector sqrt r_in.direction) rec.normal
    let reflected := unit_vector sqrt reflected + m.roughness * g.random_unit_vector 0
    (true, scatter_record.mk (vec3.mk 1 1 1) none true (ray.mk rec.p reflected r_in.time))
  else
    (true, scatter_record.mk m.albedo (some (pdf.cosine_pdf rec.normal)) false srec.skip_pdf_ray)

/-- The method `glossy::scattering_pdf`. -/
def glossy.scattering_pdf (sqrt : K → K) (pi : K) (g : random_source K) (m : glossy K)
    (r_in : ray K) (rec : hit_record K) (scattered : ray K) : K :=
  let fresnel := m.schlick_approximation sqrt r_in rec.normal
  let specular_prob := fresnel * m.specular_strength
  if g.random_double 0 < specular_prob then
    0
  else
    let cos_theta := dot rec.normal (unit_vector sqrt scattered.direction)
    if cos_theta < 0 then 0 else cos_theta / pi

/-- The static method `frosted_glass::reflectance`. -/
def frosted_glass.reflectance (cosine refraction_index : K) : K :=
  let r0 := (1 - refraction_index) / (1 + refraction_index)
  let r0 := r0 * r0
  r0 + (1 - r0) * (1 - cosine) ^ 5

/-- The method `frosted_glass::scatter`. -/
def frosted_glass.scatter (sqrt : K → K) (g : random_source K) (m : frosted_glass K)
    (r_in : ray K) (rec : hit_record K) (_srec : scatter_record K) : Bool × scatter_record K :=
  let ri := if rec.front_face then 1 / m.refraction_index else m.refraction_index
  let unit_direction := unit_vector sqrt r_in.direction
  let perturbed_normal := rec.normal + m.roughness * g.random_unit_vector 0
  let perturbed_normal := unit_vector sqrt perturbed_normal
  let cos_theta := min (dot (-unit_direction) perturbed_normal) 1
  let sin_theta := sqrt (1 - cos_theta * cos_theta)
  let cannot_refract : Bool := decide (ri * sin_theta > 1)
  let direction :=
    if cannot_refract || decide (frosted_glass.reflectance cos_theta ri > g.random_double 0) then
      unit_vector sqrt (reflect unit_direction perturbed_normal)
        + (m.roughness * 0.5) * g.random_unit_vector 1
    else
      unit_vector sqrt (refract sqrt unit_direction perturbed_normal ri)
        + (m.roughness * 0.3) * g.random_unit_vector 1
  (true, scatter_record.mk m.tint none true (ray.mk rec.p direction r_in.time))

/-- The static method `advanced_frosted_glass::reflectance`. -/
def advanced_frosted_glass.reflectance (cosine refraction_index : K) : K :=
  let r0 := (1 - refraction_index) / (1 + refraction_index)
  let r0 := r0 * r0
  r0 + (1 - r0) * (1 - cosine) ^ 5

/-- The method `advanced_frosted_glass::sample_microfacet_normal`. -/
def advanced_frosted_glass.sample_microfacet_normal (M : numerics K) (g : random_source K)
    (_m : advanced_frosted_glass K) (normal : vec3 K) (alpha : K) : vec3 K :=
  let r1 := g.random_double 0
  let r2 := g.random_double 1
  let theta := M.atan (alpha * M.sqrt r1 / M.sqrt (1 - r1))
  let phi := 2 * M.pi * r2
  let w := normal
  let u : vec3 K := if |w.x| > 0.1 then vec3.mk 0 1 0 else vec3.mk 1 0 0
  let u := unit_vector M.sqrt (cross u w)
  let v := cross w u
  let sample_dir := (M.sin theta * M.cos phi) * u + (M.sin theta * M.sin phi) * v
    + M.cos theta * w
  unit_vector M.sqrt sample_dir

/-- The method `advanced_frosted_glass::scatter`. -/
def advanced_frosted_glass.scatter (M : numerics K) (g : random_source K)
    (m : advanced_frosted_glass K) (r_in : ray K) (rec : hit_record K)
    (srec : scatter_record K) : Bool × scatter_record K :=
  if g.random_double 0 < m.subsurface_scattering then
    (true, scatter_record.mk m.tint (some (pdf.cosine_pdf rec.normal)) false srec.skip_pdf_ray)
  else
    let ri := if rec.front_face then 1 / m.refraction_index else m.refraction_index
    let unit_direction := unit_vector M.sqrt r_in.direction
    let microfacet_normal := m.sample_microfacet_normal M (g.after 1) rec.normal m.roughness
    let cos_theta := min (dot (-unit_direction) microfacet_normal) 1
    let sin_theta := M.sqrt (1 - cos_theta * cos_theta)
    let cannot_refract : Bool := decide (ri * sin_theta > 1)
    let direction :=
      if cannot_refract
          || decide (advanced_frosted_glass.reflectance cos_theta ri > g.random_double 3) then
        reflect unit_direction microfacet_normal
      else
        refract M.sqrt unit_direction microfacet_normal ri
    (true, scatter_record.mk m.tint none true (ray.mk rec.p direction r_in.time))

/-- The method `advanced_frosted_glass::scattering_pdf`. -/
def advanced_frosted_glass.scattering_pdf (sqrt : K → K) (pi : K) (g : random_source K)
    (m : advanced_frosted_glass K) (_r_in : ray K) (rec : hit_record K) (scattered : ray K) :
    K :=
  if g.random_double 0 < m.subsurface_scattering then
    let cos_theta := dot rec.normal (unit_vector sqrt scattered.direction)
    if cos_theta < 0 then 0 else cos_theta / pi
  else
    0

/-- Virtual dispatch of `emitted`: only `diffuse_light` overrides it. -/
def material.emitted (mat : material K) (r_in : ray K) (rec : hit_record K) (u v : K)
    (p : point3 K) : color K :=
  match mat with
  | material.of_diffuse_light m => m.emitted r_in rec u v p
  | _ => material.default_emitted r_in rec u v p

/-- Virtual dispatch of `scatter`: the base class and `diffuse_light` use the default. -/
def material.scatter (M : numerics K) (g : random_source K) (mat : material K) (r_in : ray K)
    (rec : hit_record K) (srec : scatter_record K) : Bool × scatter_record K :=
  match mat with
  | material.base => material.default_scatter r_in rec srec
  | material.of_lambertian m => m.scatter r_in rec srec
  | material.of_metal m => m.scatter M.sqrt g r_in rec srec
  | material.of_dielectric m => m.scatter M.sqrt g r_in rec srec
  | material.of_diffuse_light _ => material.default_scatter r_in rec srec
  | material.of_isotropic m => m.scatter r_in rec srec
  | material.of_glossy m => m.scatter M.sqrt g r_in rec srec
  | material.of_frosted_glass m => m.scatter M.sqrt g r_in rec srec
  | material.of_advanced_frosted_glass m => m.scatter M g r_in rec srec

/-- Virtual dispatch of `scattering_pdf`: overridden by `lambertian`, `isotropic`, `glossy`
and `advanced_frosted_glass`. -/
def material.scattering_pdf (M : numerics K) (g : random_source K) (mat : material K)
    (r_in : ray K) (rec : hit_record K) (scattered : ray K) : K :=
  match mat with
  | material.of_lambertian m => m.scattering_pdf M.sqrt M.pi r_in rec scattered
  | material.of_isotropic m => m.scattering_pdf M.pi r_in rec scattered
  | material.of_glossy m => m.scattering_pdf M.sqrt M.pi g r_in rec scattered
  | material.of_advanced_frosted_glass m => m.scattering_pdf M.sqrt M.pi g r_in rec scattered
  | _ => material.default_scattering_pdf r_in rec scattered

end Operations

/-! ## Spherical coordinates, in which the spec states the normalisation of a density -/

section Spherical

variable {K : Type} [LinearOrderedField K]

/-- The direction with polar angle `theta` and azimuth `phi` in the frame `(u, v, w)`:
spherical coordinates about `w`. -/
def spherical_direction (sin cos : K → K) (u v w : vec3 K) (theta phi : K) : vec3 K :=
  (sin theta * cos phi) * u + (sin theta * sin phi) * v + cos theta * w

end Spherical

/-! ## Locals of `sample_microfacet_normal` and the range condition on colours -/

section Frame

variable {K : Type} [LinearOrderedField K]

/-- The first value of the local `u` of `sample_microfacet_normal`: the helper axis, chosen
by the size of the x component of the normal. -/
def advanced_frosted_glass.helper_axis (normal : vec3 K) : vec3 K :=
  if |normal.x| > 0.1 then vec3.mk 0 1 0 else vec3.mk 1 0 0

/-- The final value of the local `u` of `sample_microfacet_normal`. -/
def advanced_frosted_glass.frame_u (sqrt : K → K) (normal : vec3 K) : vec3 K :=
  unit_vector sqrt (cross (advanced_frosted_glass.helper_axis normal) normal)

/-- The local `v` of `sample_microfacet_normal`. -/
def advanced_frosted_glass.frame_v (sqrt : K → K) (normal : vec3 K) : vec3 K :=
  cross normal (advanced_frosted_glass.frame_u sqrt normal)

/-- The local `theta` of `sample_microfacet_normal`, from the first draw `r1`. -/
def advanced_frosted_glass.theta (M : numerics K) (alpha r1 : K) : K :=
  M.atan (alpha * M.sqrt r1 / M.sqrt (1 - r1))

/-- All three channels of a colour lie in `[0,1]`. -/
def color_in_range (c : color K) : Prop :=
  (0 ≤ c.x ∧ c.x ≤ 1) ∧ (0 ≤ c.y ∧ c.y ≤ 1) ∧ (0 ≤ c.z ∧ c.z ≤ 1)

instance (c : color K) : Decidable (color_in_range c) := by
  unfold color_in_range
  infer_instance

/-- The colour inputs of a material (albedo, tint, every value of its texture) lie in
`[0,1]`; `dielectric` has no colour input. -/
def material.colors_in_range (mat : material K) : Prop :=
  match mat with
  | material.base => True
  | material.of_lambertian m => ∀ u v p, color_in_range (m.tex u v p)
  | material.of_metal m => color_in_range m.albedo
  | material.of_dielectric _ => True
  | material.of_diffuse_light m => ∀ u v p, color_in_range (m.tex u v p)
  | material.of_isotropic m => ∀ u v p, color_in_range (m.tex u v p)
  | material.of_glossy m => color_in_range m.albedo
  | material.of_frosted_glass m => color_in_range m.tint
  | material.of_advanced_frosted_glass m => color_in_range m.tint

end Frame

/-! ## Sample inputs used to instantiate the theorems -/

section Samples

variable {K : Type} [LinearOrderedField K]

/-- A ray from `(0,0,2)` straight down the z axis, direction of length 2. -/
def sample_ray : ray K := ray.mk (vec3.mk 0 0 2) (vec3.mk 0 0 (-2)) 0

/-- A front-face hit at `(0,0,1)` with normal `(0,0,1)`. -/
def sample_hit : hit_record K := hit_record.mk (vec3.mk 0 0 1) (vec3.mk 0 0 1) 1 0 0 true

/-- The same hit seen from inside the surface (`front_face` false). -/
def sample_hit_inside : hit_record K :=
  hit_record.mk (vec3.mk 0 0 1) (vec3.mk 0 0 1) 1 0 0 false

/-- A ray of unit direction `(1,0,0)`, grazing the sample hit from inside. -/
def sample_grazing_ray : ray K := ray.mk (vec3.mk (-1) 0 1) (vec3.mk 1 0 0) 0

/-- A ray of unit direction `(3/5, 0, 4/5)`, leaving the sample hit on the side of its
normal. -/
def sample_leaving_ray : ray K := ray.mk (vec3.mk 0 0 1) (vec3.mk (3 / 5) 0 (4 / 5)) 0

/-- A random source whose doubles are all `1/100` and whose unit vectors are all `(1,0,0)`. -/
def sample_low_source : random_source K :=
  random_source.mk (fun _ => 1 / 100) (fun _ => vec3.mk 1 0 0)

/-- A scatter record as the caller may hand it over before the call. -/
def sample_record : scatter_record K :=
  scatter_record.mk (vec3.mk 0 0 0) none false (ray.mk (vec3.mk 7 7 7) (vec3.mk 1 0 0) 5)

/-- A random source whose doubles are all `1/2` and whose unit vectors are all `(1,0,0)`. -/
def sample_source : random_source K := random_source.mk (fun _ => 1 / 2) (fun _ => vec3.mk 1 0 0)

end Samples

/-! ## Theorems -/

section Structural

variable {K : Type} [LinearOrderedField K]

/-- C1: whenever `scatter` returns true, for every material variant and every random
draw, the record selects exactly one protocol: `pdf_ptr` is non-null if and only if
`skip_pdf` is false; when `skip_pdf` is true the ray `skip_pdf_ray` has been written (it
starts at the hit point, carries the time of the incoming ray and does not depend on the
record passed in), and when `skip_pdf` is false it is left as the caller passed it. -/
theorem scatter_selects_one_protocol (M : numerics K) (g : random_source K) (mat : material K)
    (r_in : ray K) (rec : hit_record K) (srec : scatter_record K)
    (h : (material.scatter M g mat r_in rec srec).1 = true) :
    ((material.scatter M g mat r_in rec srec).2.pdf_ptr ≠ none ↔
      (material.scatter M g mat r_in rec srec).2.skip_pdf = false) ∧
    ((material.scatter M g mat r_in rec srec).2.skip_pdf = true →
      (material.scatter M g mat r_in rec srec).2.skip_pdf_ray.origin = rec.p ∧
      (material.scatter M g mat r_in rec srec).2.skip_pdf_ray.time = r_in.time ∧
      ∀ other : scatter_record K,
        (material.scatter M g mat r_in rec other).2.skip_pdf_ray =
          (material.scatter M g mat r_in rec srec).2.skip_pdf_ray) ∧
    ((material.scatter M g mat r_in rec srec).2.skip_pdf = false →
      (material.scatter M g mat r_in rec srec).2.skip_pdf_ray = srec.skip_pdf_ray) := by
  cases mat with
  | base => simp [material.scatter, material.default_scatter] at h
  | of_diffuse_light m => simp [material.scatter, material.default_scatter] at h
  | of_lambertian m => simp [material.scatter, lambertian.scatter]
  | of_isotropic m => simp [material.scatter, isotropic.scatter]
  | of_metal m => simp [material.scatter, metal.scatter]
  | of_dielectric m => simp [material.scatter, dielectric.scatter]
  | of_frosted_glass m => simp [material.scatter, frosted_glass.scatter]
  | of_glossy m =>
    simp only [material.scatter, glossy.scatter]
    split <;> simp
  | of_advanced_frosted_glass m =>
    simp only [material.scatter, advanced_frosted_glass.scatter]
    split <;> simp

/-- Witness for C1: a mirror (`metal` built with fuzz 0) hit by the sample ray, over the
reals. -/
theorem scatter_selects_one_protocol_witness :
    (material.scatter (numerics.mk Real.sqrt Real.arctan Real.sin Real.cos Real.pi)
        sample_source (material.of_metal (metal.construct (vec3.mk 1 1 1) 0)) sample_ray
        sample_hit sample_record).1 = true ∧
    (material.scatter (numerics.mk Real.sqrt Real.arctan Real.sin Real.cos Real.pi)
        sample_source (material.of_metal (metal.construct (vec3.mk 1 1 1) 0)) sample_ray
        sample_hit sample_record).2.skip_pdf = true ∧
    ((material.scatter (numerics.mk Real.sqrt Real.arctan Real.sin Real.cos Real.pi)
        sample_source (material.of_metal (metal.construct (vec3.mk 1 1 1) 0)) sample_ray
        sample_hit sample_record).2.pdf_ptr ≠ none ↔
      (material.scatter (numerics.mk Real.sqrt Real.arctan Real.sin Real.cos Real.pi)
        sample_source (material.of_metal (metal.construct (vec3.mk 1 1 1) 0)) sample_ray
        sample_hit sample_record).2.skip_pdf = false) :=
  ⟨rfl, rfl,
    (scatter_selects_one_protocol (numerics.mk Real.sqrt Real.arctan Real.sin Real.cos Real.pi)
      sample_source (material.of_metal (metal.construct (vec3.mk 1 1 1) 0)) sample_ray
      sample_hit sample_record rfl).1⟩

/-- C2: `diffuse_light::emitted` returns the colour `(0,0,0)` whenever `front_face` is
false, whatever the texture, and exactly `tex.value(u, v, p)` whenever `front_face` is
true; the virtual call on a `diffuse_light` object is that method. -/
theorem diffuse_light_emitted_one_sided (m : diffuse_light K) (r_in : ray K)
    (rec : hit_record K) (u v : K) (p : point3 K) :
    material.emitted (material.of_diffuse_light m) r_in rec u v p = m.emitted r_in rec u v p ∧
    m.emitted r_in rec u v p = (if rec.front_face = true then m.tex u v p else vec3.mk 0 0 0) := by
  refine ⟨rfl, ?_⟩
  cases hf : rec.front_face <;> simp [diffuse_light.emitted, hf]

/-- C3: `scatter` on a `diffuse_light` returns false and hands back the scatter record
exactly as it was passed in (attenuation, `pdf_ptr`, `skip_pdf`, `skip_pdf_ray` unchanged),
and its `scattering_pdf` is 0 for every outgoing ray. -/
theorem diffuse_light_does_not_scatter (M : numerics K) (g : random_source K)
    (m : diffuse_light K) (r_in : ray K) (rec : hit_record K) (srec : scatter_record K)
    (scattered : ray K) :
    material.scatter M g (material.of_diffuse_light m) r_in rec srec = (false, srec) ∧
    material.scattering_pdf M g (material.of_diffuse_light m) r_in rec scattered = 0 :=
  ⟨rfl, rfl⟩

/-- C5 (counterexample): the fuzz argument `-1` is stored as `-1`, outside `[0,1]`. -/
theorem metal_fuzz_negative_kept :
    ¬ (0 ≤ (metal.construct (vec3.mk 1 1 1) (-1 : ℚ)).fuzz ∧
        (metal.construct (vec3.mk 1 1 1) (-1 : ℚ)).fuzz ≤ 1) := by
  norm_num [metal.construct]

/-- C5 (amended): for every fuzz argument the stored fuzz is the argument capped at 1, so
it is at most 1 (also for arguments above 1), it lies in `[0,1]` whenever the argument is
not negative, and arguments already in `[0,1]` are stored unchanged. -/
theorem metal_fuzz_capped_above (albedo : color K) (fuzz : K) :
    (metal.construct albedo fuzz).fuzz = min fuzz 1 ∧
    (metal.construct albedo fuzz).fuzz ≤ 1 ∧
    (0 ≤ fuzz → 0 ≤ (metal.construct albedo fuzz).fuzz) ∧
    (0 ≤ fuzz → fuzz ≤ 1 → (metal.construct albedo fuzz).fuzz = fuzz) := by
  have hmin : (metal.construct albedo fuzz).fuzz = min fuzz 1 := by
    show (if fuzz < 1 then fuzz else 1) = min fuzz 1
    split_ifs with h
    · exact (min_eq_left h.le).symm
    · exact (min_eq_right (not_lt.mp h)).symm
  refine ⟨hmin, ?_, ?_, ?_⟩
  · rw [hmin]; exact min_le_right _ _
  · intro h0; rw [hmin]; exact le_min h0 zero_le_one
  · intro _ h1; rw [hmin]; exact min_eq_left h1

/-- Witness for C5 (amended): the argument 3 is stored as 1 and the argument 1/2 is
stored unchanged. -/
theorem metal_fuzz_capped_above_witness :
    (metal.construct (vec3.mk 1 1 1) (3 : ℚ)).fuzz = 1 ∧
    (metal.construct (vec3.mk 1 1 1) (1 / 2 : ℚ)).fuzz = 1 / 2 :=
  ⟨(metal_fuzz_capped_above (vec3.mk 1 1 1) (3 : ℚ)).1.trans (by norm_num),
    (metal_fuzz_capped_above (vec3.mk 1 1 1) (1 / 2 : ℚ)).2.2.2 (by norm_num) (by norm_num)⟩

/-- C9 (counterexample): for refraction index 2 the ratio used inside the medium
(`front_face` false) is 2, not the inverted index 1/2, and the ratio used on the front
face is 1/2, not 2. -/
theorem dielectric_ratio_not_inverted_inside :
    (dielectric.mk (2 : ℚ)).ri sample_hit_inside = 2 ∧
    (dielectric.mk (2 : ℚ)).ri sample_hit_inside ≠ 1 / 2 ∧
    (dielectric.mk (2 : ℚ)).ri sample_hit = 1 / 2 ∧
    (dielectric.mk (2 : ℚ)).ri sample_hit ≠ 2 := by
  norm_num [dielectric.ri, sample_hit_inside, sample_hit]

/-- C9 (amended): the ratio `ri` of `dielectric::scatter` is the inverted index
`1/refraction_index` when `front_face` is true (the ray enters the medium) and
`refraction_index` itself when `front_face` is false; the same `ri` is used by the
total-internal-reflection test, by the Schlick reflectance and by the refraction. -/
theorem dielectric_ratio_inverted_on_front_face (sqrt : K → K) (g : random_source K)
    (m : dielectric K) (r_in : ray K) (rec : hit_record K) (srec : scatter_record K) :
    m.ri rec = (if rec.front_face = true then 1 / m.refraction_index else m.refraction_index) ∧
    (m.scatter sqrt g r_in rec srec).2.skip_pdf_ray.direction =
      (if m.ri rec * dielectric.sin_theta sqrt r_in rec > 1 ∨
          dielectric.reflectance (dielectric.cos_theta sqrt r_in rec) (m.ri rec)
            > g.random_double 0 then
        reflect (unit_vector sqrt r_in.direction) rec.normal
      else
        refract sqrt (unit_vector sqrt r_in.direction) rec.normal (m.ri rec)) := by
  refine ⟨rfl, ?_⟩
  simp only [dielectric.scatter, dielectric.direction, Bool.or_eq_true, decide_eq_true_eq]

/-- C8: in `dielectric::scatter`, with `uv` the normalised incoming direction: when
`ri * sin_theta > 1` the output direction is `reflect(uv, n)` for every random draw;
otherwise it is `reflect(uv, n)` when `reflectance(cos_theta, ri)` is greater than the draw
and `refract(uv, n, ri)` when it is not. -/
theorem dielectric_reflect_or_refract (sqrt : K → K) (g : random_source K) (m : dielectric K)
    (r_in : ray K) (rec : hit_record K) (srec : scatter_record K) :
    (m.scatter sqrt g r_in rec srec).2.skip_pdf_ray.direction =
      (if m.ri rec * sqrt (1 - dielectric.cos_theta sqrt r_in rec *
            dielectric.cos_theta sqrt r_in rec) > 1 then
        reflect (unit_vector sqrt r_in.direction) rec.normal
      else if dielectric.reflectance (dielectric.cos_theta sqrt r_in rec) (m.ri rec)
          > g.random_double 0 then
        reflect (unit_vector sqrt r_in.direction) rec.normal
      else
        refract sqrt (unit_vector sqrt r_in.direction) rec.normal (m.ri rec)) ∧
    (m.ri rec * sqrt (1 - dielectric.cos_theta sqrt r_in rec *
          dielectric.cos_theta sqrt r_in rec) > 1 →
      ∀ draws : random_source K,
        (m.scatter sqrt draws r_in rec srec).2.skip_pdf_ray.direction =
          reflect (unit_vector sqrt r_in.direction) rec.normal) := by
  constructor
  · simp only [dielectric.scatter, dielectric.direction, dielectric.sin_theta,
      Bool.or_eq_true, decide_eq_true_eq]
    split_ifs <;> simp_all
  · intro h draws
    simp only [dielectric.scatter, dielectric.direction, dielectric.sin_theta,
      Bool.or_eq_true, decide_eq_true_eq]
    rw [if_pos (Or.inl h)]

end Structural

/-! ## Vector algebra used by the proofs -/

section Algebra

variable {K : Type} [LinearOrderedField K]

@[simp]
lemma vec3.add_x (a b : vec3 K) : (a + b).x = a.x + b.x := rfl

@[simp]
lemma vec3.add_y (a b : vec3 K) : (a + b).y = a.y + b.y := rfl

@[simp]
lemma vec3.add_z (a b : vec3 K) : (a + b).z = a.z + b.z := rfl

@[simp]
lemma vec3.sub_x (a b : vec3 K) : (a - b).x = a.x - b.x := rfl

@[simp]
lemma vec3.sub_y (a b : vec3 K) : (a - b).y = a.y - b.y := rfl

@[simp]
lemma vec3.sub_z (a b : vec3 K) : (a - b).z = a.z - b.z := rfl

@[simp]
lemma vec3.neg_x (a : vec3 K) : (-a).x = -a.x := rfl

@[simp]
lemma vec3.neg_y (a : vec3 K) : (-a).y = -a.y := rfl

@[simp]
lemma vec3.neg_z (a : vec3 K) : (-a).z = -a.z := rfl

@[simp]
lemma vec3.smul_x (t : K) (a : vec3 K) : (t * a).x = t * a.x := rfl

@[simp]
lemma vec3.smul_y (t : K) (a : vec3 K) : (t * a).y = t * a.y := rfl

@[simp]
lemma vec3.smul_z (t : K) (a : vec3 K) : (t * a).z = t * a.z := rfl

/-- Scaling a vector scales its squared length by the square of the factor. -/
lemma length_squared_smul (t : K) (a : vec3 K) :
    (t * a).length_squared = t * t * a.length_squared := by
  simp only [vec3.length_squared, vec3.smul_x, vec3.smul_y, vec3.smul_z]
  ring

/-- Reflection about a unit normal preserves the squared length. -/
lemma length_squared_reflect (v n : vec3 K) (hn : n.length_squared = 1) :
    (reflect v n).length_squared = v.length_squared := by
  simp only [vec3.length_squared] at hn
  simp only [reflect, dot, vec3.length_squared, vec3.sub_x, vec3.sub_y, vec3.sub_z, vec3.smul_x,
    vec3.smul_y, vec3.smul_z]
  linear_combination (4 * (v.x * n.x + v.y * n.y + v.z * n.z) ^ 2) * hn

/-- The squared length of a sum. -/
lemma length_squared_add (a b : vec3 K) :
    (a + b).length_squared = a.length_squared + 2 * dot a b + b.length_squared := by
  simp only [vec3.length_squared, dot, vec3.add_x, vec3.add_y, vec3.add_z]
  ring

/-- The dot product is additive in its first argument. -/
lemma dot_add_left (a b n : vec3 K) : dot (a + b) n = dot a n + dot b n := by
  simp only [dot, vec3.add_x, vec3.add_y, vec3.add_z]
  ring

/-- A factor of the first argument comes out of the dot product. -/
lemma dot_smul_left (t : K) (a n : vec3 K) : dot (t * a) n = t * dot a n := by
  simp only [dot, vec3.smul_x, vec3.smul_y, vec3.smul_z]
  ring

/-- A factor of the second argument comes out of the dot product. -/
lemma dot_smul_right (t : K) (a n : vec3 K) : dot a (t * n) = t * dot a n := by
  simp only [dot, vec3.smul_x, vec3.smul_y, vec3.smul_z]
  ring

/-- Negating the first argument negates the dot product. -/
lemma dot_neg_left (a n : vec3 K) : dot (-a) n = -dot a n := by
  simp only [dot, vec3.neg_x, vec3.neg_y, vec3.neg_z]
  ring

/-- The dot product is symmetric. -/
lemma dot_comm (a b : vec3 K) : dot a b = dot b a := by
  simp only [dot]
  ring

/-- The dot product of a vector with itself is its squared length. -/
lemma dot_self (a : vec3 K) : dot a a = a.length_squared := rfl

/-- Cauchy-Schwarz for two unit vectors: the square of the dot product is at most 1. -/
lemma dot_mul_self_le_one (a n : vec3 K) (ha : a.length_squared = 1)
    (hn : n.length_squared = 1) : dot a n * dot a n ≤ 1 := by
  simp only [vec3.length_squared] at ha hn
  simp only [dot]
  nlinarith [sq_nonneg (a.x * n.y - a.y * n.x), sq_nonneg (a.x * n.z - a.z * n.x),
    sq_nonneg (a.y * n.z - a.z * n.y), mul_self_nonneg (a.x * n.x + a.y * n.y + a.z * n.z)]

/-- Cauchy-Schwarz for two unit vectors, in the form used for `cos_theta`. -/
lemma dot_neg_le_one (a n : vec3 K) (ha : a.length_squared = 1) (hn : n.length_squared = 1) :
    dot (-a) n ≤ 1 := by
  simp only [vec3.length_squared] at ha hn
  simp only [dot, vec3.neg_x, vec3.neg_y, vec3.neg_z]
  nlinarith [sq_nonneg (a.x + n.x), sq_nonneg (a.y + n.y), sq_nonneg (a.z + n.z)]

/-- A vector other than zero has a positive squared length. -/
lemma length_squared_pos (a : vec3 K) (ha : a ≠ vec3.mk 0 0 0) : 0 < a.length_squared := by
  have h0 : 0 ≤ a.length_squared := by
    simp only [vec3.length_squared]
    nlinarith [mul_self_nonneg a.x, mul_self_nonneg a.y, mul_self_nonneg a.z]
  rcases h0.lt_or_eq with h | h
  · exact h
  · exfalso
    apply ha
    simp only [vec3.length_squared] at h
    have hx : a.x = 0 := by
      nlinarith [mul_self_nonneg a.x, mul_self_nonneg a.y, mul_self_nonneg a.z]
    have hy : a.y = 0 := by
      nlinarith [mul_self_nonneg a.x, mul_self_nonneg a.y, mul_self_nonneg a.z]
    have hz : a.z = 0 := by
      nlinarith [mul_self_nonneg a.x, mul_self_nonneg a.y, mul_self_nonneg a.z]
    ext <;> assumption

end Algebra

section RealAlgebra

/-- Over the reals the normalised vector of a vector other than zero has squared length 1. -/
lemma length_squared_unit_vector (a : vec3 ℝ) (ha : 0 < a.length_squared) :
    (unit_vector Real.sqrt a).length_squared = 1 := by
  have hs : Real.sqrt a.length_squared * Real.sqrt a.length_squared = a.length_squared :=
    Real.mul_self_sqrt ha.le
  have hpos : 0 < Real.sqrt a.length_squared := Real.sqrt_pos.mpr ha
  rw [unit_vector, length_squared_smul, vec3.length]
  field_simp

/-- The square root of 4, met when the sample ray is normalised. -/
lemma sqrt_four : Real.sqrt 4 = 2 := by
  rw [show (4 : ℝ) = 2 ^ 2 by norm_num]
  exact Real.sqrt_sq (by norm_num)

/-- The sample ray normalised is the unit vector down the z axis. -/
lemma unit_vector_sample_ray :
    unit_vector Real.sqrt (sample_ray : ray ℝ).direction = vec3.mk 0 0 (-1) := by
  have h4 : Real.sqrt (2 * 2) = 2 := by
    rw [show (2 : ℝ) * 2 = 4 by norm_num, sqrt_four]
  ext <;> simp [unit_vector, vec3.length, vec3.length_squared, sample_ray, h4]

/-- Over the reals, refraction of a unit vector at a unit normal with a ratio that is not
negative and passes the test `ri * sin_theta <= 1` gives a vector of squared length 1. -/
lemma length_squared_refract (uv n : vec3 ℝ) (r : ℝ) (hu : uv.length_squared = 1)
    (hn : n.length_squared = 1) (hr : 0 ≤ r)
    (hcan : ¬ (r * Real.sqrt (1 - min (dot (-uv) n) 1 * min (dot (-uv) n) 1) > 1)) :
    (refract Real.sqrt uv n r).length_squared = 1 := by
  have hmin : min (dot (-uv) n) 1 = -dot uv n := by
    rw [min_eq_left (dot_neg_le_one uv n hu hn), dot_neg_left]
  have hcs : dot uv n * dot uv n ≤ 1 := dot_mul_self_le_one uv n hu hn
  rw [hmin] at hcan
  have hs0 : 0 ≤ 1 - -dot uv n * -dot uv n := by nlinarith
  have hss := Real.mul_self_sqrt hs0
  have hsn := Real.sqrt_nonneg (1 - -dot uv n * -dot uv n)
  have hle : r * Real.sqrt (1 - -dot uv n * -dot uv n) ≤ 1 := not_lt.mp hcan
  have hperp : (r * (uv + (-dot uv n) * n)).length_squared
      = r * r * (1 - dot uv n * dot uv n) := by
    rw [length_squared_smul, length_squared_add, length_squared_smul, dot_smul_right, hu, hn]
    ring
  have hperp_le : (r * (uv + (-dot uv n) * n)).length_squared ≤ 1 := by
    rw [hperp]
    have h1 : 0 ≤ r * Real.sqrt (1 - -dot uv n * -dot uv n) := mul_nonneg hr hsn
    have h2 : (r * Real.sqrt (1 - -dot uv n * -dot uv n))
        * (r * Real.sqrt (1 - -dot uv n * -dot uv n)) ≤ 1 := by nlinarith
    have h3 : (r * Real.sqrt (1 - -dot uv n * -dot uv n))
        * (r * Real.sqrt (1 - -dot uv n * -dot uv n))
          = r * r * (1 - dot uv n * dot uv n) := by
      calc (r * Real.sqrt (1 - -dot uv n * -dot uv n))
            * (r * Real.sqrt (1 - -dot uv n * -dot uv n))
          = r * r * (Real.sqrt (1 - -dot uv n * -dot uv n)
              * Real.sqrt (1 - -dot uv n * -dot uv n)) := by ring
        _ = r * r * (1 - dot uv n * dot uv n) := by rw [hss]; ring
    rw [← h3]
    exact h2
  have hdotn : dot (r * (uv + (-dot uv n) * n)) n = 0 := by
    rw [dot_smul_left, dot_add_left, dot_smul_left, dot_self, hn]
    ring
  have habs : |1 - (r * (uv + (-dot uv n) * n)).length_squared|
      = 1 - (r * (uv + (-dot uv n) * n)).length_squared :=
    abs_of_nonneg (by linarith)
  have hq := Real.mul_self_sqrt
    (show 0 ≤ 1 - (r * (uv + (-dot uv n) * n)).length_squared by linarith)
  simp only [refract, hmin, habs]
  generalize r * (uv + -dot uv n * n) = P at hperp_le hdotn hq ⊢
  rw [length_squared_add, length_squared_smul, dot_smul_right, hdotn, hn]
  linear_combination hq

/-- Over the reals a vector of squared length 1 is its own normalisation. -/
lemma unit_vector_of_length_squared_one (a : vec3 ℝ) (ha : a.length_squared = 1) :
    unit_vector Real.sqrt a = a := by
  rw [unit_vector, vec3.length, ha, Real.sqrt_one]
  ext <;> simp

/-- A direction given in spherical coordinates of an orthonormal frame has squared
length 1. -/
lemma length_squared_spherical (u v w : vec3 ℝ) (theta phi : ℝ)
    (hu : u.length_squared = 1) (hv : v.length_squared = 1) (hw : w.length_squared = 1)
    (huv : dot u v = 0) (huw : dot u w = 0) (hvw : dot v w = 0) :
    (spherical_direction Real.sin Real.cos u v w theta phi).length_squared = 1 := by
  rw [spherical_direction, length_squared_add, length_squared_add, dot_add_left]
  simp only [length_squared_smul, dot_smul_left, dot_smul_right, hu, hv, hw, huv, huw, hvw]
  linear_combination (Real.sin theta ^ 2) * Real.sin_sq_add_cos_sq phi
    + Real.sin_sq_add_cos_sq theta

/-- The cosine between the axis `w` and a direction given in spherical coordinates about
`w` is the cosine of the polar angle. -/
lemma dot_spherical (u v w : vec3 ℝ) (theta phi : ℝ) (hw : w.length_squared = 1)
    (huw : dot u w = 0) (hvw : dot v w = 0) :
    dot w (spherical_direction Real.sin Real.cos u v w theta phi) = Real.cos theta := by
  rw [dot_comm, spherical_direction, dot_add_left, dot_add_left]
  simp only [dot_smul_left, dot_self, hw, huw, hvw]
  ring

/-- The integral of `cos θ / π * sin θ` over the polar angles of a hemisphere. -/
lemma integral_cos_div_pi_mul_sin :
    (∫ theta in (0 : ℝ)..(Real.pi / 2), Real.cos theta / Real.pi * Real.sin theta)
      = 1 / (2 * Real.pi) := by
  have hfun : (fun theta : ℝ => Real.cos theta / Real.pi * Real.sin theta)
      = fun theta => (1 / Real.pi) * (Real.sin theta * Real.cos theta) := by
    funext theta
    ring
  rw [hfun, intervalIntegral.integral_const_mul, integral_sin_mul_cos₁]
  simp only [Real.sin_pi_div_two, Real.sin_zero]
  field_simp
  ring

/-- The integral of `cos θ / π * sin θ` over a hemisphere is 1. -/
lemma integral_hemisphere_cosine :
    (∫ _phi in (0 : ℝ)..(2 * Real.pi), ∫ theta in (0 : ℝ)..(Real.pi / 2),
        Real.cos theta / Real.pi * Real.sin theta) = 1 := by
  rw [integral_cos_div_pi_mul_sin, intervalIntegral.integral_const]
  have hpi : Real.pi ≠ 0 := Real.pi_ne_zero
  simp only [sub_zero, smul_eq_mul]
  field_simp

end RealAlgebra

section RealTheorems

/-- C4 (counterexample): a mirror hit by the sample ray, whose direction `(0,0,-2)` has
length 2, sends out the direction `(0,0,1)`, while the geometric reflection
`d - 2 (d.n) n` is `(0,0,2)`. -/
theorem metal_mirror_direction_is_normalised :
    (metal.scatter Real.sqrt sample_source (metal.construct (vec3.mk 1 1 1) 0) sample_ray
        sample_hit sample_record).2.skip_pdf_ray.direction = vec3.mk 0 0 1 ∧
    reflect (sample_ray : ray ℝ).direction (sample_hit : hit_record ℝ).normal = vec3.mk 0 0 2 ∧
    (metal.scatter Real.sqrt sample_source (metal.construct (vec3.mk 1 1 1) 0) sample_ray
        sample_hit sample_record).2.skip_pdf_ray.direction ≠
      reflect (sample_ray : ray ℝ).direction (sample_hit : hit_record ℝ).normal := by
  have hrefl : reflect (sample_ray : ray ℝ).direction (sample_hit : hit_record ℝ).normal
      = vec3.mk 0 0 2 := by
    ext <;> simp [reflect, dot, sample_ray, sample_hit]
    norm_num
  have hdir : (metal.scatter Real.sqrt sample_source (metal.construct (vec3.mk 1 1 1) 0)
      sample_ray sample_hit sample_record).2.skip_pdf_ray.direction = vec3.mk 0 0 1 := by
    have h4 : Real.sqrt (2 * 2) = 2 := by
      rw [show (2 : ℝ) * 2 = 4 by norm_num, sqrt_four]
    simp only [metal.scatter, hrefl]
    ext <;> simp [unit_vector, vec3.length, vec3.length_squared, metal.construct, h4]
  refine ⟨hdir, hrefl, ?_⟩
  rw [hdir, hrefl]
  intro h
  have hz := congrArg vec3.z h
  norm_num at hz

/-- C4 (amended): for a metal built with fuzz 0, every incoming direction `d` other than
zero, every unit normal `n` and every random unit vector, the direction of
`skip_pdf_ray` is the geometric reflection normalised to unit length,
`(d - 2 (d.n) n) / |d|`; it equals `d - 2 (d.n) n` itself exactly when `d` has length 1. -/
theorem metal_mirror_reflects (g : random_source ℝ) (albedo : color ℝ) (r_in : ray ℝ)
    (rec : hit_record ℝ) (srec : scatter_record ℝ)
    (hd : r_in.direction ≠ vec3.mk 0 0 0) (hn : rec.normal.length_squared = 1) :
    (metal.scatter Real.sqrt g (metal.construct albedo 0) r_in rec srec).2.skip_pdf_ray.direction
      = (1 / r_in.direction.length Real.sqrt) * reflect r_in.direction rec.normal ∧
    ((metal.scatter Real.sqrt g (metal.construct albedo 0) r_in rec
        srec).2.skip_pdf_ray.direction = reflect r_in.direction rec.normal ↔
      r_in.direction.length_squared = 1) := by
  have hpos : 0 < r_in.direction.length_squared := length_squared_pos _ hd
  have hls : (reflect r_in.direction rec.normal).length_squared = r_in.direction.length_squared :=
    length_squared_reflect _ _ hn
  have hdir : (metal.scatter Real.sqrt g (metal.construct albedo 0) r_in rec
      srec).2.skip_pdf_ray.direction
        = (1 / r_in.direction.length Real.sqrt) * reflect r_in.direction rec.normal := by
    simp only [metal.scatter, metal.construct, unit_vector, vec3.length, hls]
    ext <;> simp
  refine ⟨hdir, ?_⟩
  rw [hdir]
  have hLpos : 0 < Real.sqrt r_in.direction.length_squared := Real.sqrt_pos.mpr hpos
  constructor
  · intro h
    have h2 := congrArg vec3.length_squared h
    rw [length_squared_smul, hls, vec3.length] at h2
    have h3 : 1 / Real.sqrt r_in.direction.length_squared
        * (1 / Real.sqrt r_in.direction.length_squared) = 1 := by
      have := mul_right_cancel₀ hpos.ne' (h2.trans (one_mul _).symm)
      exact this
    have hinv : 1 / Real.sqrt r_in.direction.length_squared
        * (1 / Real.sqrt r_in.direction.length_squared)
        * (Real.sqrt r_in.direction.length_squared
          * Real.sqrt r_in.direction.length_squared) = 1 := by
      field_simp
    rw [h3, one_mul, Real.mul_self_sqrt hpos.le] at hinv
    exact hinv
  · intro h
    rw [vec3.length, h, Real.sqrt_one]
    ext <;> simp

/-- Witness for C4 (amended): the sample ray, of length 2, on the sample hit. -/
theorem metal_mirror_reflects_witness :
    (metal.scatter Real.sqrt sample_source (metal.construct (vec3.mk 1 1 1) 0) sample_ray
        sample_hit sample_record).2.skip_pdf_ray.direction
      = (1 / (sample_ray : ray ℝ).direction.length Real.sqrt)
          * reflect (sample_ray : ray ℝ).direction (sample_hit : hit_record ℝ).normal :=
  (metal_mirror_reflects sample_source (vec3.mk 1 1 1) sample_ray sample_hit sample_record
    (by
      intro h
      have hz := congrArg vec3.z h
      norm_num [sample_ray] at hz)
    (by norm_num [vec3.length_squared, sample_hit])).1

/-- C7: for every index `eta` other than -1, `reflectance(1, eta)` is
`((1 - eta) / (1 + eta))^2`; and for `refraction_index = 1.5`, a hit on the front face
(the ratio passed is `1/1.5`) and normal incidence (`cos_theta = 1`), the reflectance that
`scatter` compares with the random draw is exactly 0.04. -/
theorem dielectric_reflectance_normal_incidence (eta : ℝ) (heta : eta ≠ -1)
    (g : random_source ℝ) (r_in : ray ℝ) (rec : hit_record ℝ) (srec : scatter_record ℝ)
    (hff : rec.front_face = true) (hcos : dielectric.cos_theta Real.sqrt r_in rec = 1) :
    dielectric.reflectance 1 eta = ((1 - eta) / (1 + eta)) ^ 2 ∧
    (dielectric.mk 1.5).ri rec = 1 / 1.5 ∧
    dielectric.reflectance (dielectric.cos_theta Real.sqrt r_in rec)
      ((dielectric.mk 1.5).ri rec) = 0.04 ∧
    (dielectric.scatter Real.sqrt g (dielectric.mk 1.5) r_in rec srec).2.skip_pdf_ray.direction =
      (if (0.04 : ℝ) > g.random_double 0 then
        reflect (unit_vector Real.sqrt r_in.direction) rec.normal
      else
        refract Real.sqrt (unit_vector Real.sqrt r_in.direction) rec.normal (1 / 1.5)) := by
  have _hden : 1 + eta ≠ 0 := fun h => heta (by linarith)
  have hri : (dielectric.mk (1.5 : ℝ)).ri rec = 1 / 1.5 := by
    simp [dielectric.ri, hff]
  have hrefl : dielectric.reflectance (dielectric.cos_theta Real.sqrt r_in rec)
      ((dielectric.mk 1.5).ri rec) = 0.04 := by
    rw [hcos, hri]
    norm_num [dielectric.reflectance]
  refine ⟨?_, hri, hrefl, ?_⟩
  · simp only [dielectric.reflectance]
    ring
  · have hsin : dielectric.sin_theta Real.sqrt r_in rec = 0 := by
      simp [dielectric.sin_theta, hcos]
    have hno : ¬ ((dielectric.mk (1.5 : ℝ)).ri rec * dielectric.sin_theta Real.sqrt r_in rec
        > 1) := by
      rw [hsin]
      norm_num
    simp only [dielectric.scatter, dielectric.direction, Bool.or_eq_true, decide_eq_true_eq,
      hrefl, hno, false_or]
    rw [hri]

/-- Witness for C7: index 1.5, the sample ray falling along the normal of the sample
hit. -/
theorem dielectric_reflectance_normal_incidence_witness :
    dielectric.cos_theta Real.sqrt (sample_ray : ray ℝ) sample_hit = 1 ∧
    dielectric.reflectance (dielectric.cos_theta Real.sqrt (sample_ray : ray ℝ) sample_hit)
      ((dielectric.mk 1.5).ri (sample_hit : hit_record ℝ)) = 0.04 ∧
    dielectric.reflectance 1 (1.5 : ℝ) = ((1 - 1.5) / (1 + 1.5)) ^ 2 := by
  have hcos : dielectric.cos_theta Real.sqrt (sample_ray : ray ℝ) sample_hit = 1 := by
    simp [dielectric.cos_theta, unit_vector_sample_ray, dot, sample_hit]
  have h := dielectric_reflectance_normal_incidence 1.5 (by norm_num) sample_source sample_ray
    sample_hit sample_record rfl hcos
  exact ⟨hcos, h.2.2.1, h.1⟩

/-- C6: for every dielectric with `refraction_index > 0`, every incoming ray whose
direction is not zero, every unit normal, either value of `front_face` and every random
draw, the direction of the ray written by `scatter` has length exactly 1 (real
arithmetic). -/
theorem dielectric_direction_unit_length (g : random_source ℝ) (m : dielectric ℝ)
    (r_in : ray ℝ) (rec : hit_record ℝ) (srec : scatter_record ℝ)
    (hri : 0 < m.refraction_index) (hd : r_in.direction ≠ vec3.mk 0 0 0)
    (hn : rec.normal.length_squared = 1) :
    (m.scatter Real.sqrt g r_in rec srec).2.skip_pdf_ray.direction.length Real.sqrt = 1 := by
  have hu : (unit_vector Real.sqrt r_in.direction).length_squared = 1 :=
    length_squared_unit_vector _ (length_squared_pos _ hd)
  have hr : 0 ≤ m.ri rec := by
    unfold dielectric.ri
    split_ifs
    · exact (one_div_pos.mpr hri).le
    · exact hri.le
  have hsq : (m.scatter Real.sqrt g r_in rec srec).2.skip_pdf_ray.direction.length_squared
      = 1 := by
    simp only [dielectric.scatter, dielectric.direction, dielectric.sin_theta,
      dielectric.cos_theta, Bool.or_eq_true, decide_eq_true_eq]
    split_ifs with hbranch
    · rw [length_squared_reflect _ _ hn, hu]
    · exact length_squared_refract _ _ _ hu hn hr (fun hc => hbranch (Or.inl hc))
  rw [vec3.length, hsq, Real.sqrt_one]

/-- Witness for C6: glass of index 1.5 hit from outside by the sample ray. -/
theorem dielectric_direction_unit_length_witness :
    ((dielectric.mk (1.5 : ℝ)).scatter Real.sqrt sample_source sample_ray sample_hit
      sample_record).2.skip_pdf_ray.direction.length Real.sqrt = 1 :=
  dielectric_direction_unit_length sample_source (dielectric.mk 1.5) sample_ray sample_hit
    sample_record (by norm_num)
    (by
      intro h
      have hz := congrArg vec3.z h
      norm_num [sample_ray] at hz)
    (by norm_num [vec3.length_squared, sample_hit])

/-- C10: for a lambertian and a unit normal `n`, completed to an orthonormal frame
`(u, v, n)`: in spherical coordinates about `n`, `scattering_pdf` is `cos(theta)/pi` on
the hemisphere `0 <= theta <= pi/2`, its integral against `sin(theta)` over
`phi` in `[0, 2 pi]` and `theta` in `[0, pi/2]` is 1, that integral is the integral of
`(cos(theta)/pi) * sin(theta)`, and `scattering_pdf` is 0 on every direction of the opposite
hemisphere. -/
theorem lambertian_pdf_integrates_to_one (m : lambertian ℝ) (r_in : ray ℝ)
    (rec : hit_record ℝ) (u v : vec3 ℝ) (origin : point3 ℝ) (time : ℝ)
    (hn : rec.normal.length_squared = 1) (hu : u.length_squared = 1)
    (hv : v.length_squared = 1) (huv : dot u v = 0) (hun : dot u rec.normal = 0)
    (hvn : dot v rec.normal = 0) :
    (∫ phi in (0 : ℝ)..(2 * Real.pi), ∫ theta in (0 : ℝ)..(Real.pi / 2),
        m.scattering_pdf Real.sqrt Real.pi r_in rec
          (ray.mk origin (spherical_direction Real.sin Real.cos u v rec.normal theta phi) time)
          * Real.sin theta) = 1 ∧
    (∫ _phi in (0 : ℝ)..(2 * Real.pi), ∫ theta in (0 : ℝ)..(Real.pi / 2),
        Real.cos theta / Real.pi * Real.sin theta) = 1 ∧
    (∀ theta phi : ℝ, 0 ≤ theta → theta ≤ Real.pi / 2 →
      m.scattering_pdf Real.sqrt Real.pi r_in rec
          (ray.mk origin (spherical_direction Real.sin Real.cos u v rec.normal theta phi) time)
        = Real.cos theta / Real.pi) ∧
    (∀ theta phi : ℝ, Real.pi / 2 ≤ theta → theta ≤ Real.pi →
      m.scattering_pdf Real.sqrt Real.pi r_in rec
          (ray.mk origin (spherical_direction Real.sin Real.cos u v rec.normal theta phi) time)
        = 0) ∧
    (∀ scattered : ray ℝ,
      dot rec.normal (unit_vector Real.sqrt scattered.direction) < 0 →
        m.scattering_pdf Real.sqrt Real.pi r_in rec scattered = 0) := by
  have hcos : ∀ theta phi : ℝ,
      dot rec.normal (unit_vector Real.sqrt
        (spherical_direction Real.sin Real.cos u v rec.normal theta phi)) = Real.cos theta := by
    intro theta phi
    rw [unit_vector_of_length_squared_one _
      (length_squared_spherical u v rec.normal theta phi hu hv hn huv hun hvn)]
    exact dot_spherical u v rec.normal theta phi hn hun hvn
  have hupper : ∀ theta phi : ℝ, 0 ≤ theta → theta ≤ Real.pi / 2 →
      m.scattering_pdf Real.sqrt Real.pi r_in rec
          (ray.mk origin (spherical_direction Real.sin Real.cos u v rec.normal theta phi) time)
        = Real.cos theta / Real.pi := by
    intro theta phi h0 h1
    have hc : 0 ≤ Real.cos theta :=
      Real.cos_nonneg_of_neg_pi_div_two_le_of_le (by linarith [Real.pi_pos]) h1
    simp only [lambertian.scattering_pdf, hcos]
    rw [if_neg (not_lt.mpr hc)]
  refine ⟨?_, integral_hemisphere_cosine, hupper, ?_, ?_⟩
  · rw [← integral_hemisphere_cosine]
    refine intervalIntegral.integral_congr ?_
    intro phi _
    refine intervalIntegral.integral_congr ?_
    intro theta htheta
    rw [Set.uIcc_of_le (by linarith [Real.pi_pos])] at htheta
    show _ * Real.sin theta = _ * Real.sin theta
    rw [hupper theta phi htheta.1 htheta.2]
  · intro theta phi h0 h1
    have hc : Real.cos theta ≤ 0 :=
      Real.cos_nonpos_of_pi_div_two_le_of_le h0 (by linarith [Real.pi_pos])
    simp only [lambertian.scattering_pdf, hcos]
    split_ifs with hlt
    · rfl
    · have h0c : Real.cos theta = 0 := le_antisymm hc (not_lt.mp hlt)
      rw [h0c, zero_div]
  · intro scattered hneg
    simp only [lambertian.scattering_pdf]
    rw [if_pos hneg]

/-- Witness for C10: the normal `(0,0,1)` of the sample hit with the frame
`(1,0,0)`, `(0,1,0)`. -/
theorem lambertian_pdf_integrates_to_one_witness :
    (∫ phi in (0 : ℝ)..(2 * Real.pi), ∫ theta in (0 : ℝ)..(Real.pi / 2),
        (lambertian.mk (solid_color (vec3.mk 0.5 0.5 0.5))).scattering_pdf Real.sqrt Real.pi
          sample_ray sample_hit
          (ray.mk (vec3.mk 0 0 1)
            (spherical_direction Real.sin Real.cos (vec3.mk 1 0 0) (vec3.mk 0 1 0)
              (sample_hit : hit_record ℝ).normal theta phi) 0)
          * Real.sin theta) = 1 :=
  (lambertian_pdf_integrates_to_one (lambertian.mk (solid_color (vec3.mk 0.5 0.5 0.5)))
    sample_ray sample_hit (vec3.mk 1 0 0) (vec3.mk 0 1 0) (vec3.mk 0 0 1) 0
    (by norm_num [vec3.length_squared, sample_hit])
    (by norm_num [vec3.length_squared])
    (by norm_num [vec3.length_squared])
    (by norm_num [dot])
    (by norm_num [dot, sample_hit])
    (by norm_num [dot, sample_hit])).1

/-- Witness for C8: inside glass of index 1.5 (`front_face` false, so `ri = 1.5`) the
grazing sample ray has `sin_theta = 1`, the test `ri * sin_theta > 1` holds, and every
draw gives the reflected direction. -/
theorem dielectric_reflect_or_refract_witness :
    (dielectric.mk (1.5 : ℝ)).ri sample_hit_inside
      * Real.sqrt (1 - dielectric.cos_theta Real.sqrt sample_grazing_ray sample_hit_inside
          * dielectric.cos_theta Real.sqrt sample_grazing_ray sample_hit_inside) > 1 ∧
    ∀ draws : random_source ℝ,
      ((dielectric.mk (1.5 : ℝ)).scatter Real.sqrt draws sample_grazing_ray sample_hit_inside
          sample_record).2.skip_pdf_ray.direction =
        reflect (unit_vector Real.sqrt (sample_grazing_ray : ray ℝ).direction)
          (sample_hit_inside : hit_record ℝ).normal := by
  have hcos : dielectric.cos_theta Real.sqrt (sample_grazing_ray : ray ℝ) sample_hit_inside
      = 0 := by
    simp [dielectric.cos_theta, unit_vector, vec3.length, vec3.length_squared, dot,
      sample_grazing_ray, sample_hit_inside]
  have htir : (dielectric.mk (1.5 : ℝ)).ri sample_hit_inside
      * Real.sqrt (1 - dielectric.cos_theta Real.sqrt sample_grazing_ray sample_hit_inside
          * dielectric.cos_theta Real.sqrt sample_grazing_ray sample_hit_inside) > 1 := by
    rw [hcos]
    norm_num [dielectric.ri, sample_hit_inside]
  exact ⟨htir, (dielectric_reflect_or_refract Real.sqrt sample_source (dielectric.mk 1.5)
    sample_grazing_ray sample_hit_inside sample_record).2 htir⟩

end RealTheorems

/-! ## Attenuation range, the isotropic density and the Schlick reflectance -/

section Reflectance

variable {K : Type} [LinearOrderedField K]

/-- The colour `(1,1,1)` lies in the range `[0,1]`. -/
lemma color_in_range_white : color_in_range (vec3.mk 1 1 1 : color K) := by
  simp [color_in_range]

/-- C12: for every material variant whose colour inputs (albedo, tint, every value of
the texture) have all channels in `[0,1]`, every input and every random draw, each channel
of the attenuation lies in `[0,1]` whenever `scatter` returns true. -/
theorem attenuation_in_range (M : numerics K) (g : random_source K) (mat : material K)
    (r_in : ray K) (rec : hit_record K) (srec : scatter_record K)
    (hcol : mat.colors_in_range) (h : (material.scatter M g mat r_in rec srec).1 = true) :
    color_in_range (material.scatter M g mat r_in rec srec).2.attenuation := by
  cases mat with
  | base => simp [material.scatter, material.default_scatter] at h
  | of_diffuse_light m => simp [material.scatter, material.default_scatter] at h
  | of_lambertian m => exact hcol rec.u rec.v rec.p
  | of_isotropic m => exact hcol rec.u rec.v rec.p
  | of_metal m => exact hcol
  | of_dielectric m => exact color_in_range_white
  | of_frosted_glass m => exact hcol
  | of_glossy m =>
    simp only [material.scatter, glossy.scatter]
    split
    · exact color_in_range_white
    · exact hcol
  | of_advanced_frosted_glass m =>
    simp only [material.scatter, advanced_frosted_glass.scatter]
    split
    · exact hcol
    · exact hcol

/-- Witness for C12: the glossy material of the test scene with specular strength 0.8,
hit by the sample ray; the draw 1/2 takes the diffuse branch and the attenuation is the
albedo `(0.8, 0.1, 0)`. -/
theorem attenuation_in_range_witness :
    (material.scatter (numerics.mk Real.sqrt Real.arctan Real.sin Real.cos Real.pi)
        sample_source (material.of_glossy (glossy.mk (vec3.mk 0.8 0.1 0) 0 0.8)) sample_ray
        sample_hit sample_record).1 = true ∧
    color_in_range
      (material.scatter (numerics.mk Real.sqrt Real.arctan Real.sin Real.cos Real.pi)
        sample_source (material.of_glossy (glossy.mk (vec3.mk 0.8 0.1 0) 0 0.8)) sample_ray
        sample_hit sample_record).2.attenuation := by
  have hret : (material.scatter (numerics.mk Real.sqrt Real.arctan Real.sin Real.cos Real.pi)
      sample_source (material.of_glossy (glossy.mk (vec3.mk 0.8 0.1 0) 0 0.8)) sample_ray
      sample_hit sample_record).1 = true := by
    simp only [material.scatter, glossy.scatter]
    split <;> rfl
  refine ⟨hret, attenuation_in_range _ _ _ _ _ _ ?_ hret⟩
  show color_in_range (vec3.mk 0.8 0.1 0 : color ℝ)
  norm_num [color_in_range]

/-- C13: `isotropic::scattering_pdf` is the constant `1/(4 pi)`: the same value for every
isotropic material, incoming ray, hit record, outgoing ray and random source, also through
the virtual call. -/
theorem isotropic_pdf_constant (M : numerics K) (g other_g : random_source K)
    (m other_m : isotropic K) (r_in other_in : ray K) (rec other_rec : hit_record K)
    (scattered other_scattered : ray K) :
    m.scattering_pdf M.pi r_in rec scattered = 1 / (4 * M.pi) ∧
    material.scattering_pdf M g (material.of_isotropic m) r_in rec scattered
      = 1 / (4 * M.pi) ∧
    material.scattering_pdf M g (material.of_isotropic m) r_in rec scattered
      = material.scattering_pdf M other_g (material.of_isotropic other_m) other_in other_rec
          other_scattered :=
  ⟨rfl, rfl, rfl⟩

/-- C19: the Schlick reflectance does not change when the index is inverted: for every
cosine `c` and every index other than 0 and -1, `reflectance(c, eta)` is
`reflectance(c, 1/eta)`; hence the reflectance of a dielectric at a given cosine is the
same on a hit with `front_face` true and on one with `front_face` false. -/
theorem reflectance_inverse_index (m : dielectric K) (c : K) (front back : hit_record K)
    (h0 : m.refraction_index ≠ 0) (h1 : m.refraction_index ≠ -1)
    (hfront : front.front_face = true) (hback : back.front_face = false) :
    dielectric.reflectance c m.refraction_index
      = dielectric.reflectance c (1 / m.refraction_index) ∧
    dielectric.reflectance c (m.ri front) = dielectric.reflectance c (m.ri back) := by
  have hden : 1 + m.refraction_index ≠ 0 := fun h => h1 (by linarith)
  have hden2 : m.refraction_index + 1 ≠ 0 := fun h => h1 (by linarith)
  have hr0 : (1 - 1 / m.refraction_index) / (1 + 1 / m.refraction_index)
      = -((1 - m.refraction_index) / (1 + m.refraction_index)) := by
    have hnum : 1 - 1 / m.refraction_index
        = (m.refraction_index - 1) / m.refraction_index := by
      field_simp
    have hsum : 1 + 1 / m.refraction_index
        = (m.refraction_index + 1) / m.refraction_index := by
      field_simp
    rw [hnum, hsum, div_div_div_cancel_right₀ h0, ← neg_div, neg_sub, add_comm]
  have hmain : dielectric.reflectance c m.refraction_index
      = dielectric.reflectance c (1 / m.refraction_index) := by
    simp only [dielectric.reflectance, hr0]
    ring
  refine ⟨hmain, ?_⟩
  simp only [dielectric.ri, hfront, hback, if_true, Bool.false_eq_true, if_false]
  exact hmain.symm

/-- Witness for C19: index 3/2 at cosine 1/2, on the two sample hits. -/
theorem reflectance_inverse_index_witness :
    dielectric.reflectance (1 / 2 : ℚ) (3 / 2) = dielectric.reflectance (1 / 2 : ℚ) (1 / (3 / 2)) ∧
    dielectric.reflectance (1 / 2 : ℚ) ((dielectric.mk (3 / 2 : ℚ)).ri sample_hit)
      = dielectric.reflectance (1 / 2 : ℚ) ((dielectric.mk (3 / 2 : ℚ)).ri sample_hit_inside) :=
  reflectance_inverse_index (dielectric.mk (3 / 2 : ℚ)) (1 / 2) sample_hit sample_hit_inside
    (by norm_num) (by norm_num) rfl rfl

end Reflectance

section Probability

variable {K : Type} [LinearOrderedField K]

/-- The fifth power of `1 - c` lies in `[0,1]` when `c` does. -/
lemma one_sub_pow_five_mem (c : K) (hc0 : 0 ≤ c) (hc1 : c ≤ 1) :
    0 ≤ (1 - c) ^ 5 ∧ (1 - c) ^ 5 ≤ 1 :=
  ⟨pow_nonneg (by linarith) 5, pow_le_one₀ (by linarith) (by linarith)⟩

/-- The base reflectance `r0` of a positive index lies in `[0,1)`. -/
lemma base_reflectance_mem (eta : K) (heta : 0 < eta) :
    0 ≤ (1 - eta) / (1 + eta) * ((1 - eta) / (1 + eta)) ∧
    (1 - eta) / (1 + eta) * ((1 - eta) / (1 + eta)) < 1 := by
  have hden : 0 < 1 + eta := by linarith
  have hlt : (1 - eta) / (1 + eta) < 1 := by
    rw [div_lt_one hden]
    linarith
  have hgt : -1 < (1 - eta) / (1 + eta) := by
    rw [lt_div_iff₀ hden]
    linarith
  constructor
  · exact mul_self_nonneg _
  · nlinarith

/-- C20: for every index `eta > 0` and every cosine `c` in `[0,1]`, `reflectance(c, eta)`
lies in `[r0, 1]` with `r0 = ((1 - eta) / (1 + eta))^2` in `[0,1)`, and it does not increase
when the cosine grows to another value `c2` in `[c, 1]`. -/
theorem reflectance_is_probability (eta c c2 : K) (heta : 0 < eta) (hc0 : 0 ≤ c)
    (hle : c ≤ c2) (hc2 : c2 ≤ 1) :
    (0 ≤ ((1 - eta) / (1 + eta)) ^ 2 ∧ ((1 - eta) / (1 + eta)) ^ 2 < 1) ∧
    (((1 - eta) / (1 + eta)) ^ 2 ≤ dielectric.reflectance c eta ∧
      dielectric.reflectance c eta ≤ 1) ∧
    dielectric.reflectance c2 eta ≤ dielectric.reflectance c eta := by
  obtain ⟨hr0, hr1⟩ := base_reflectance_mem eta heta
  obtain ⟨ht0, ht1⟩ := one_sub_pow_five_mem c hc0 (hle.trans hc2)
  have hmono : (1 - c2) ^ 5 ≤ (1 - c) ^ 5 :=
    pow_le_pow_left₀ (by linarith) (by linarith) 5
  simp only [dielectric.reflectance, sq]
  refine ⟨⟨hr0, hr1⟩, ⟨?_, ?_⟩, ?_⟩
  · nlinarith
  · nlinarith
  · nlinarith

/-- Witness for C20: glass of index 3/2 at the cosines 1/2 and 1. -/
theorem reflectance_is_probability_witness :
    (((1 - (3 / 2 : ℚ)) / (1 + 3 / 2)) ^ 2 ≤ dielectric.reflectance (1 / 2) (3 / 2 : ℚ) ∧
      dielectric.reflectance (1 / 2) (3 / 2 : ℚ) ≤ 1) ∧
    dielectric.reflectance 1 (3 / 2 : ℚ) ≤ dielectric.reflectance (1 / 2) (3 / 2 : ℚ) :=
  (reflectance_is_probability (3 / 2 : ℚ) (1 / 2) 1 (by norm_num) (by norm_num) (by norm_num)
    (by norm_num)).2

end Probability

section RealDensities

/-- Over the reals the dot product of a unit normal with a normalised direction other than
zero lies in `[-1,1]`. -/
lemma dot_unit_vector_mem (n d : vec3 ℝ) (hn : n.length_squared = 1)
    (hd : d ≠ vec3.mk 0 0 0) :
    -1 ≤ dot n (unit_vector Real.sqrt d) ∧ dot n (unit_vector Real.sqrt d) ≤ 1 := by
  have hu : (unit_vector Real.sqrt d).length_squared = 1 :=
    length_squared_unit_vector _ (length_squared_pos _ hd)
  have hsq := dot_mul_self_le_one n (unit_vector Real.sqrt d) hn hu
  constructor <;> nlinarith

/-- The cosine term `cos < 0 ? 0 : cos / pi` lies in `[0, 1/pi]` when `cos <= 1`. -/
lemma cosine_density_mem (c : ℝ) (hc : c ≤ 1) :
    0 ≤ (if c < 0 then 0 else c / Real.pi) ∧ (if c < 0 then 0 else c / Real.pi) ≤ 1 / Real.pi := by
  have hpi : 0 < Real.pi := Real.pi_pos
  split_ifs with h
  · exact ⟨le_refl _, by positivity⟩
  · exact ⟨div_nonneg (not_lt.mp h) hpi.le, div_le_div_of_nonneg_right hc hpi.le⟩

/-- C11: over the reals, for every material variant, every incoming ray, every hit record
with unit normal, every outgoing ray whose direction is not zero and every random draw,
`scattering_pdf` returns a value that is not negative, and at most `1/pi` (in particular
for lambertian, glossy and advanced_frosted_glass). -/
theorem scattering_pdf_nonneg (atan sin cos : ℝ → ℝ) (g : random_source ℝ) (mat : material ℝ)
    (r_in : ray ℝ) (rec : hit_record ℝ) (scattered : ray ℝ)
    (hn : rec.normal.length_squared = 1) (hd : scattered.direction ≠ vec3.mk 0 0 0) :
    0 ≤ material.scattering_pdf (numerics.mk Real.sqrt atan sin cos Real.pi) g mat r_in rec
        scattered ∧
    material.scattering_pdf (numerics.mk Real.sqrt atan sin cos Real.pi) g mat r_in rec
        scattered ≤ 1 / Real.pi := by
  have hpi : 0 < Real.pi := Real.pi_pos
  have hzero : (0 : ℝ) ≤ 0 ∧ (0 : ℝ) ≤ 1 / Real.pi := ⟨le_refl _, by positivity⟩
  have hcos := cosine_density_mem _ (dot_unit_vector_mem rec.normal scattered.direction hn hd).2
  cases mat with
  | base => exact hzero
  | of_metal m => exact hzero
  | of_dielectric m => exact hzero
  | of_diffuse_light m => exact hzero
  | of_frosted_glass m => exact hzero
  | of_lambertian m => exact hcos
  | of_isotropic m =>
    simp only [material.scattering_pdf, isotropic.scattering_pdf]
    constructor
    · positivity
    · rw [div_le_div_iff₀ (by positivity) hpi]
      nlinarith
  | of_glossy m =>
    simp only [material.scattering_pdf, glossy.scattering_pdf]
    split_ifs with h1 h2
    · exact hzero
    · exact hzero
    · exact ⟨div_nonneg (not_lt.mp h2) hpi.le,
        div_le_div_of_nonneg_right
          (dot_unit_vector_mem rec.normal scattered.direction hn hd).2 hpi.le⟩
  | of_advanced_frosted_glass m =>
    simp only [material.scattering_pdf, advanced_frosted_glass.scattering_pdf]
    split_ifs with h1 h2
    · exact hzero
    · exact ⟨div_nonneg (not_lt.mp h2) hpi.le,
        div_le_div_of_nonneg_right
          (dot_unit_vector_mem rec.normal scattered.direction hn hd).2 hpi.le⟩
    · exact hzero

/-- Witness for C11: a lambertian on the sample hit, outgoing ray along the sample
direction. -/
theorem scattering_pdf_nonneg_witness :
    0 ≤ material.scattering_pdf
        (numerics.mk Real.sqrt Real.arctan Real.sin Real.cos Real.pi) sample_source
        (material.of_lambertian (lambertian.mk (solid_color (vec3.mk 0.5 0.5 0.5)))) sample_ray
        sample_hit sample_ray ∧
    material.scattering_pdf
        (numerics.mk Real.sqrt Real.arctan Real.sin Real.cos Real.pi) sample_source
        (material.of_lambertian (lambertian.mk (solid_color (vec3.mk 0.5 0.5 0.5)))) sample_ray
        sample_hit sample_ray ≤ 1 / Real.pi :=
  scattering_pdf_nonneg Real.arctan Real.sin Real.cos sample_source
    (material.of_lambertian (lambertian.mk (solid_color (vec3.mk 0.5 0.5 0.5)))) sample_ray
    sample_hit sample_ray
    (by norm_num [vec3.length_squared, sample_hit])
    (by
      intro h
      have hz := congrArg vec3.z h
      norm_num [sample_ray] at hz)

/-- C18: over the reals, for every incoming ray whose direction is not zero and every unit
normal, the `cos_theta` of `dielectric::scatter` is the unclamped cosine and lies in
`[-1,1]`, so `1 - cos_theta^2` is not negative and `sin_theta` lies in `[0,1]`. -/
theorem dielectric_cos_sin_range (r_in : ray ℝ) (rec : hit_record ℝ)
    (hd : r_in.direction ≠ vec3.mk 0 0 0) (hn : rec.normal.length_squared = 1) :
    dielectric.cos_theta Real.sqrt r_in rec
      = dot (-(unit_vector Real.sqrt r_in.direction)) rec.normal ∧
    (-1 ≤ dielectric.cos_theta Real.sqrt r_in rec ∧
      dielectric.cos_theta Real.sqrt r_in rec ≤ 1) ∧
    0 ≤ 1 - dielectric.cos_theta Real.sqrt r_in rec * dielectric.cos_theta Real.sqrt r_in rec ∧
    (0 ≤ dielectric.sin_theta Real.sqrt r_in rec ∧
      dielectric.sin_theta Real.sqrt r_in rec ≤ 1) := by
  have hmem := dot_unit_vector_mem rec.normal r_in.direction hn hd
  have hdot : dot (-(unit_vector Real.sqrt r_in.direction)) rec.normal
      = -dot rec.normal (unit_vector Real.sqrt r_in.direction) := by
    rw [dot_neg_left, dot_comm]
  have hcos : dielectric.cos_theta Real.sqrt r_in rec
      = dot (-(unit_vector Real.sqrt r_in.direction)) rec.normal := by
    rw [dielectric.cos_theta, hdot]
    exact min_eq_left (by linarith [hmem.1])
  have hlo : -1 ≤ dielectric.cos_theta Real.sqrt r_in rec := by
    rw [hcos, hdot]
    linarith [hmem.2]
  have hhi : dielectric.cos_theta Real.sqrt r_in rec ≤ 1 := by
    rw [hcos, hdot]
    linarith [hmem.1]
  have harg : 0 ≤ 1 - dielectric.cos_theta Real.sqrt r_in rec
      * dielectric.cos_theta Real.sqrt r_in rec := by nlinarith
  refine ⟨hcos, ⟨hlo, hhi⟩, harg, Real.sqrt_nonneg _, ?_⟩
  rw [dielectric.sin_theta]
  have hle : 1 - dielectric.cos_theta Real.sqrt r_in rec
      * dielectric.cos_theta Real.sqrt r_in rec ≤ 1 := by
    nlinarith [mul_self_nonneg (dielectric.cos_theta Real.sqrt r_in rec)]
  calc Real.sqrt (1 - dielectric.cos_theta Real.sqrt r_in rec
        * dielectric.cos_theta Real.sqrt r_in rec)
      ≤ Real.sqrt 1 := Real.sqrt_le_sqrt hle
    _ = 1 := Real.sqrt_one

/-- Witness for C18: the sample ray, of length 2, on the sample hit. -/
theorem dielectric_cos_sin_range_witness :
    (-1 ≤ dielectric.cos_theta Real.sqrt (sample_ray : ray ℝ) sample_hit ∧
      dielectric.cos_theta Real.sqrt (sample_ray : ray ℝ) sample_hit ≤ 1) ∧
    0 ≤ 1 - dielectric.cos_theta Real.sqrt (sample_ray : ray ℝ) sample_hit
      * dielectric.cos_theta Real.sqrt (sample_ray : ray ℝ) sample_hit ∧
    (0 ≤ dielectric.sin_theta Real.sqrt (sample_ray : ray ℝ) sample_hit ∧
      dielectric.sin_theta Real.sqrt (sample_ray : ray ℝ) sample_hit ≤ 1) :=
  (dielectric_cos_sin_range sample_ray sample_hit
    (by
      intro h
      have hz := congrArg vec3.z h
      norm_num [sample_ray] at hz)
    (by norm_num [vec3.length_squared, sample_hit])).2

/-- C15: over the reals, for every glossy material with `specular_strength` in `[0,1]`,
every incoming ray whose direction is not zero and every unit normal facing the ray, the
Fresnel term is `0.04 + 0.96 (1 - cos_theta)^5` with `cos_theta = -unit(d).n`, the threshold
`fresnel * specular_strength` lies in `[0,1]`, and `scatter` takes the specular branch
exactly when the draw is below the threshold. -/
theorem glossy_threshold_is_probability (g : random_source ℝ) (m : glossy ℝ) (r_in : ray ℝ)
    (rec : hit_record ℝ) (srec : scatter_record ℝ)
    (hs0 : 0 ≤ m.specular_strength) (hs1 : m.specular_strength ≤ 1)
    (hd : r_in.direction ≠ vec3.mk 0 0 0) (hn : rec.normal.length_squared = 1)
    (hface : 0 ≤ dot (-(unit_vector Real.sqrt r_in.direction)) rec.normal) :
    m.schlick_approximation Real.sqrt r_in rec.normal
      = 0.04 + 0.96 * (1 - dot (-(unit_vector Real.sqrt r_in.direction)) rec.normal) ^ 5 ∧
    (0 ≤ m.schlick_approximation Real.sqrt r_in rec.normal * m.specular_strength ∧
      m.schlick_approximation Real.sqrt r_in rec.normal * m.specular_strength ≤ 1) ∧
    ((m.scatter Real.sqrt g r_in rec srec).2.skip_pdf = true ↔
      g.random_double 0
        < m.schlick_approximation Real.sqrt r_in rec.normal * m.specular_strength) := by
  have hmem := dot_unit_vector_mem rec.normal r_in.direction hn hd
  have hdot : dot (-(unit_vector Real.sqrt r_in.direction)) rec.normal
      = -dot rec.normal (unit_vector Real.sqrt r_in.direction) := by
    rw [dot_neg_left, dot_comm]
  have hle : dot (-(unit_vector Real.sqrt r_in.direction)) rec.normal ≤ 1 := by
    rw [hdot]
    linarith [hmem.1]
  have hschlick : m.schlick_approximation Real.sqrt r_in rec.normal
      = 0.04 + 0.96 * (1 - dot (-(unit_vector Real.sqrt r_in.direction)) rec.normal) ^ 5 := by
    simp only [glossy.schlick_approximation, min_eq_left hle]
    norm_num
  obtain ⟨ht0, ht1⟩ := one_sub_pow_five_mem _ hface hle
  have hR0 : 0 ≤ m.schlick_approximation Real.sqrt r_in rec.normal := by
    rw [hschlick]
    nlinarith
  have hR1 : m.schlick_approximation Real.sqrt r_in rec.normal ≤ 1 := by
    rw [hschlick]
    nlinarith
  refine ⟨hschlick, ⟨mul_nonneg hR0 hs0, ?_⟩, ?_⟩
  · calc m.schlick_approximation Real.sqrt r_in rec.normal * m.specular_strength
        ≤ 1 * 1 := mul_le_mul hR1 hs1 hs0 zero_le_one
      _ = 1 := one_mul 1
  · simp only [glossy.scatter]
    split_ifs with hbranch
    · simp [hbranch]
    · simp [hbranch]

/-- The Fresnel term of a glossy material for the sample ray on the sample hit is 0.04. -/
lemma schlick_sample (m : glossy ℝ) :
    m.schlick_approximation Real.sqrt sample_ray (sample_hit : hit_record ℝ).normal = 0.04 := by
  simp only [glossy.schlick_approximation, unit_vector_sample_ray]
  norm_num [dot, sample_hit]

/-- Witness for C15: the glossy material with specular strength 0.8 on the sample hit;
the threshold is 0.032, and the draw 1/2 is not below it. -/
theorem glossy_threshold_is_probability_witness :
    (0 ≤ (glossy.mk (vec3.mk 0.8 0.1 0) 0 (0.8 : ℝ)).schlick_approximation Real.sqrt sample_ray
          (sample_hit : hit_record ℝ).normal * 0.8 ∧
      (glossy.mk (vec3.mk 0.8 0.1 0) 0 (0.8 : ℝ)).schlick_approximation Real.sqrt sample_ray
          (sample_hit : hit_record ℝ).normal * 0.8 ≤ 1) ∧
    (((glossy.mk (vec3.mk 0.8 0.1 0) 0 (0.8 : ℝ)).scatter Real.sqrt sample_source sample_ray
        sample_hit sample_record).2.skip_pdf = true ↔
      (1 / 2 : ℝ) < (glossy.mk (vec3.mk 0.8 0.1 0) 0 (0.8 : ℝ)).schlick_approximation Real.sqrt
          sample_ray (sample_hit : hit_record ℝ).normal * 0.8) :=
  (glossy_threshold_is_probability sample_source (glossy.mk (vec3.mk 0.8 0.1 0) 0 0.8)
    sample_ray sample_hit sample_record (by norm_num) (by norm_num)
    (by
      intro h
      have hz := congrArg vec3.z h
      norm_num [sample_ray] at hz)
    (by norm_num [vec3.length_squared, sample_hit])
    (by
      rw [unit_vector_sample_ray]
      norm_num [dot, sample_hit])).2

/-- C14: `glossy::scattering_pdf` draws its own branch decision.  For the glossy material
with specular strength 0.8 on the sample hit (threshold 0.032), `scatter` with the draw
1/2 takes the diffuse branch (`skip_pdf` false, cosine pdf) while `scattering_pdf` with
the draw 1/100 returns 0 for the outgoing direction along the normal, whose cosine is 1.
With one and the same draw, for every glossy material and input, `scattering_pdf` returns
`max(0, cos_theta)/pi` when `scatter` took the diffuse branch and 0 when it took the
specular branch. -/
theorem glossy_pdf_redraws_branch (g : random_source ℝ) (m : glossy ℝ) (r_in : ray ℝ)
    (rec : hit_record ℝ) (srec : scatter_record ℝ) (scattered : ray ℝ) :
    (((glossy.mk (vec3.mk 0.8 0.1 0) 0 (0.8 : ℝ)).scatter Real.sqrt sample_source sample_ray
          sample_hit sample_record).2.skip_pdf = false ∧
      ((glossy.mk (vec3.mk 0.8 0.1 0) 0 (0.8 : ℝ)).scatter Real.sqrt sample_source sample_ray
          sample_hit sample_record).2.pdf_ptr
        = some (pdf.cosine_pdf (sample_hit : hit_record ℝ).normal) ∧
      0 < dot (sample_hit : hit_record ℝ).normal
          (unit_vector Real.sqrt (vec3.mk 0 0 1 : vec3 ℝ)) ∧
      (glossy.mk (vec3.mk 0.8 0.1 0) 0 (0.8 : ℝ)).scattering_pdf Real.sqrt Real.pi
          sample_low_source sample_ray sample_hit
          (ray.mk (vec3.mk 0 0 1) (vec3.mk 0 0 1) 0) = 0) ∧
    ((m.scatter Real.sqrt g r_in rec srec).2.skip_pdf = false →
      m.scattering_pdf Real.sqrt Real.pi g r_in rec scattered
        = max 0 (dot rec.normal (unit_vector Real.sqrt scattered.direction)) / Real.pi) ∧
    ((m.scatter Real.sqrt g r_in rec srec).2.skip_pdf = true →
      m.scattering_pdf Real.sqrt Real.pi g r_in rec scattered = 0) ∧
    (0 < dot rec.normal (unit_vector Real.sqrt scattered.direction) →
      (m.scattering_pdf Real.sqrt Real.pi g r_in rec scattered
          = max 0 (dot rec.normal (unit_vector Real.sqrt scattered.direction)) / Real.pi ↔
        (m.scatter Real.sqrt g r_in rec srec).2.skip_pdf = false)) := by
  have hpi : 0 < Real.pi := Real.pi_pos
  have hmax : ∀ c : ℝ, (if c < 0 then 0 else c / Real.pi) = max 0 c / Real.pi := by
    intro c
    split_ifs with h
    · rw [max_eq_left h.le, zero_div]
    · rw [max_eq_right (not_lt.mp h)]
  refine ⟨⟨?_, ?_, ?_, ?_⟩, ?_, ?_, ?_⟩
  · simp only [glossy.scatter, schlick_sample]
    norm_num [sample_source]
  · simp only [glossy.scatter, schlick_sample]
    norm_num [sample_source]
  · rw [unit_vector_of_length_squared_one _ (by norm_num [vec3.length_squared])]
    norm_num [dot, sample_hit]
  · simp only [glossy.scattering_pdf, schlick_sample]
    norm_num [sample_low_source]
  · intro h
    by_cases hbranch : g.random_double 0
        < m.schlick_approximation Real.sqrt r_in rec.normal * m.specular_strength
    · simp [glossy.scatter, hbranch] at h
    · simp only [glossy.scattering_pdf, if_neg hbranch]
      exact hmax _
  · intro h
    by_cases hbranch : g.random_double 0
        < m.schlick_approximation Real.sqrt r_in rec.normal * m.specular_strength
    · simp only [glossy.scattering_pdf, if_pos hbranch]
    · simp [glossy.scatter, hbranch] at h
  · intro hpos
    by_cases hbranch : g.random_double 0
        < m.schlick_approximation Real.sqrt r_in rec.normal * m.specular_strength
    · simp only [glossy.scatter, glossy.scattering_pdf, if_pos hbranch, Bool.true_eq_false,
        iff_false]
      rw [max_eq_right hpos.le]
      exact (div_pos hpos hpi).ne
    · simp only [glossy.scatter, glossy.scattering_pdf, if_neg hbranch, iff_true]
      exact hmax _

end RealDensities

/-! ## The microfacet frame -/

section CrossProduct

variable {K : Type} [LinearOrderedField K]

/-- The cross product is orthogonal to its second factor. -/
lemma dot_cross_right (a b : vec3 K) : dot (cross a b) b = 0 := by
  simp only [dot, cross]
  ring

/-- The cross product is orthogonal to its first factor. -/
lemma dot_cross_left (a b : vec3 K) : dot (cross a b) a = 0 := by
  simp only [dot, cross]
  ring

/-- The identity of Lagrange for the squared length of a cross product. -/
lemma length_squared_cross (a b : vec3 K) :
    (cross a b).length_squared = a.length_squared * b.length_squared - dot a b * dot a b := by
  simp only [vec3.length_squared, dot, cross]
  ring

/-- The helper axis is never parallel to a unit normal: their cross product has a
positive squared length. -/
lemma helper_axis_cross_pos (n : vec3 K) (hn : n.length_squared = 1) :
    0 < (cross (advanced_frosted_glass.helper_axis n) n).length_squared := by
  simp only [vec3.length_squared] at hn
  unfold advanced_frosted_glass.helper_axis
  split_ifs with h
  · have hx : 0 < n.x * n.x := by
      have hpos : 0 < |n.x| := lt_trans (by norm_num) h
      have := mul_pos hpos hpos
      rwa [abs_mul_abs_self] at this
    simp only [vec3.length_squared, cross]
    nlinarith [mul_self_nonneg n.z]
  · have hle : |n.x| ≤ 0.1 := not_lt.mp h
    have hx : n.x * n.x ≤ 0.1 * 0.1 := by
      rw [← abs_mul_abs_self n.x]
      exact mul_le_mul hle hle (abs_nonneg _) (by norm_num)
    simp only [vec3.length_squared, cross]
    norm_num at hx ⊢
    nlinarith

end CrossProduct

section RealFrame

/-- Over the reals the local `u` of `sample_microfacet_normal` is a unit vector orthogonal
to the unit normal. -/
lemma frame_u_spec (n : vec3 ℝ) (hn : n.length_squared = 1) :
    (advanced_frosted_glass.frame_u Real.sqrt n).length_squared = 1 ∧
    dot (advanced_frosted_glass.frame_u Real.sqrt n) n = 0 := by
  constructor
  · exact length_squared_unit_vector _ (helper_axis_cross_pos n hn)
  · rw [advanced_frosted_glass.frame_u, unit_vector, dot_smul_left, dot_cross_right, mul_zero]

/-- Over the reals the local `v` of `sample_microfacet_normal` is a unit vector orthogonal
to the unit normal and to `u`. -/
lemma frame_v_spec (n : vec3 ℝ) (hn : n.length_squared = 1) :
    (advanced_frosted_glass.frame_v Real.sqrt n).length_squared = 1 ∧
    dot (advanced_frosted_glass.frame_v Real.sqrt n) n = 0 ∧
    dot (advanced_frosted_glass.frame_u Real.sqrt n)
      (advanced_frosted_glass.frame_v Real.sqrt n) = 0 := by
  obtain ⟨hu, hun⟩ := frame_u_spec n hn
  refine ⟨?_, ?_, ?_⟩
  · rw [advanced_frosted_glass.frame_v, length_squared_cross, hn, hu, dot_comm, hun]
    norm_num
  · rw [advanced_frosted_glass.frame_v]
    exact dot_cross_left _ _
  · rw [advanced_frosted_glass.frame_v, dot_comm]
    exact dot_cross_right _ _

/-- C16: over the reals, for every unit normal `n`, every `alpha >= 0` and draws `r1`,
`r2` in `[0,1)`: the helper axis of `sample_microfacet_normal` is not parallel to `n`
(their cross product is not zero), `(u, v, n)` is an orthonormal frame, and the returned
microfacet normal is the direction with polar angle
`theta = atan(alpha sqrt(r1) / sqrt(1 - r1))` in `[0, pi/2)` and azimuth `2 pi r2` in
`[0, 2 pi)` of that frame: it has length 1 and its dot product with `n` is
`cos(theta) > 0`. -/
theorem microfacet_normal_in_hemisphere (g : random_source ℝ) (m : advanced_frosted_glass ℝ)
    (normal : vec3 ℝ) (alpha : ℝ) (hn : normal.length_squared = 1) (halpha : 0 ≤ alpha)
    (hr1 : 0 ≤ g.random_double 0 ∧ g.random_double 0 < 1)
    (hr2 : 0 ≤ g.random_double 1 ∧ g.random_double 1 < 1) :
    cross (advanced_frosted_glass.helper_axis normal) normal ≠ vec3.mk 0 0 0 ∧
    ((advanced_frosted_glass.frame_u Real.sqrt normal).length_squared = 1 ∧
      (advanced_frosted_glass.frame_v Real.sqrt normal).length_squared = 1 ∧
      dot (advanced_frosted_glass.frame_u Real.sqrt normal)
        (advanced_frosted_glass.frame_v Real.sqrt normal) = 0 ∧
      dot (advanced_frosted_glass.frame_u Real.sqrt normal) normal = 0 ∧
      dot (advanced_frosted_glass.frame_v Real.sqrt normal) normal = 0) ∧
    m.sample_microfacet_normal (numerics.mk Real.sqrt Real.arctan Real.sin Real.cos Real.pi) g
        normal alpha
      = spherical_direction Real.sin Real.cos (advanced_frosted_glass.frame_u Real.sqrt normal)
          (advanced_frosted_glass.frame_v Real.sqrt normal) normal
          (Real.arctan (alpha * Real.sqrt (g.random_double 0)
            / Real.sqrt (1 - g.random_double 0)))
          (2 * Real.pi * g.random_double 1) ∧
    (m.sample_microfacet_normal (numerics.mk Real.sqrt Real.arctan Real.sin Real.cos Real.pi) g
        normal alpha).length Real.sqrt = 1 ∧
    dot (m.sample_microfacet_normal
        (numerics.mk Real.sqrt Real.arctan Real.sin Real.cos Real.pi) g normal alpha) normal
      = Real.cos (Real.arctan (alpha * Real.sqrt (g.random_double 0)
          / Real.sqrt (1 - g.random_double 0))) ∧
    0 < Real.cos (Real.arctan (alpha * Real.sqrt (g.random_double 0)
          / Real.sqrt (1 - g.random_double 0))) ∧
    (0 ≤ Real.arctan (alpha * Real.sqrt (g.random_double 0)
          / Real.sqrt (1 - g.random_double 0)) ∧
      Real.arctan (alpha * Real.sqrt (g.random_double 0)
          / Real.sqrt (1 - g.random_double 0)) < Real.pi / 2) ∧
    (0 ≤ 2 * Real.pi * g.random_double 1 ∧ 2 * Real.pi * g.random_double 1 < 2 * Real.pi) := by
  obtain ⟨hu, hun⟩ := frame_u_spec normal hn
  obtain ⟨hv, hvn, huv⟩ := frame_v_spec normal hn
  have hpi : 0 < Real.pi := Real.pi_pos
  have hls := length_squared_spherical (advanced_frosted_glass.frame_u Real.sqrt normal)
    (advanced_frosted_glass.frame_v Real.sqrt normal) normal
    (Real.arctan (alpha * Real.sqrt (g.random_double 0) / Real.sqrt (1 - g.random_double 0)))
    (2 * Real.pi * g.random_double 1) hu hv hn huv hun hvn
  have hfun : m.sample_microfacet_normal
      (numerics.mk Real.sqrt Real.arctan Real.sin Real.cos Real.pi) g normal alpha
      = spherical_direction Real.sin Real.cos (advanced_frosted_glass.frame_u Real.sqrt normal)
          (advanced_frosted_glass.frame_v Real.sqrt normal) normal
          (Real.arctan (alpha * Real.sqrt (g.random_double 0)
            / Real.sqrt (1 - g.random_double 0)))
          (2 * Real.pi * g.random_double 1) := by
    rw [← unit_vector_of_length_squared_one _ hls]
    rfl
  have harg : 0 ≤ alpha * Real.sqrt (g.random_double 0)
      / Real.sqrt (1 - g.random_double 0) :=
    div_nonneg (mul_nonneg halpha (Real.sqrt_nonneg _)) (Real.sqrt_nonneg _)
  have htheta : 0 ≤ Real.arctan (alpha * Real.sqrt (g.random_double 0)
      / Real.sqrt (1 - g.random_double 0)) := by
    have := Real.arctan_strictMono.monotone harg
    rwa [Real.arctan_zero] at this
  refine ⟨?_, ⟨hu, hv, huv, hun, hvn⟩, hfun, ?_, ?_, Real.cos_arctan_pos _,
    ⟨htheta, Real.arctan_lt_pi_div_two _⟩, ⟨?_, ?_⟩⟩
  · intro hzero
    have hpos := helper_axis_cross_pos normal hn
    rw [hzero] at hpos
    norm_num [vec3.length_squared] at hpos
  · rw [hfun, vec3.length, hls, Real.sqrt_one]
  · rw [hfun, dot_comm]
    exact dot_spherical _ _ _ _ _ hn hun hvn
  · exact mul_nonneg (mul_nonneg (by norm_num) hpi.le) hr2.1
  · have := hr1.2
    nlinarith [hr2.2]

/-- Witness for C16: the normal `(0,0,1)`, roughness 1/10 and the sample source, whose
draws are all 1/2. -/
theorem microfacet_normal_in_hemisphere_witness :
    ((advanced_frosted_glass.mk (1.5 : ℝ) 0.1 0.2 (vec3.mk 1 1 1)).sample_microfacet_normal
        (numerics.mk Real.sqrt Real.arctan Real.sin Real.cos Real.pi) sample_source
        (vec3.mk 0 0 1) 0.1).length Real.sqrt = 1 :=
  (microfacet_normal_in_hemisphere sample_source
    (advanced_frosted_glass.mk (1.5 : ℝ) 0.1 0.2 (vec3.mk 1 1 1)) (vec3.mk 0 0 1) 0.1
    (by norm_num [vec3.length_squared]) (by norm_num)
    (by norm_num [sample_source]) (by norm_num [sample_source])).2.2.2.1

end RealFrame

/-! ## Frosted glass without roughness and the dielectric -/

section SmoothFrosted

/-- Adding a zero multiple of a vector changes nothing. -/
lemma add_zero_smul (t : ℝ) (a b : vec3 ℝ) (ht : t = 0) : a + t * b = a := by
  subst ht
  ext <;> simp

/-- Over the reals, with a unit normal and the same draw for the branch decision,
`frosted_glass` with roughness 0 and white tint writes the record of the dielectric of the
same index, except that the direction is normalised. -/
lemma frosted_glass_smooth_scatter (g_frosted g_dielectric : random_source ℝ)
    (refraction_index : ℝ) (r_in : ray ℝ) (rec : hit_record ℝ) (srec : scatter_record ℝ)
    (hn : rec.normal.length_squared = 1)
    (hdraw : g_frosted.random_double 0 = g_dielectric.random_double 0) :
    (frosted_glass.mk refraction_index 0 (vec3.mk 1 1 1)).scatter Real.sqrt g_frosted r_in rec
        srec
      = (true, scatter_record.mk (vec3.mk 1 1 1) none true
          (ray.mk rec.p
            (unit_vector Real.sqrt
              (dielectric.direction Real.sqrt g_dielectric (dielectric.mk refraction_index)
                r_in rec))
            r_in.time)) := by
  have hpn : unit_vector Real.sqrt (rec.normal + (0 : ℝ) * g_frosted.random_unit_vector 0)
      = rec.normal := by
    rw [add_zero_smul _ _ _ rfl, unit_vector_of_length_squared_one _ hn]
  simp only [frosted_glass.scatter, dielectric.direction, dielectric.cos_theta,
    dielectric.sin_theta, dielectric.ri, frosted_glass.reflectance, dielectric.reflectance,
    hpn, hdraw]
  split_ifs <;> simp [add_zero_smul]

/-- Over the reals the direction computed by `dielectric::scatter` has squared length 1
for a positive index, a direction other than zero and a unit normal. -/
lemma dielectric_direction_length_squared (g : random_source ℝ) (m : dielectric ℝ)
    (r_in : ray ℝ) (rec : hit_record ℝ) (hri : 0 < m.refraction_index)
    (hd : r_in.direction ≠ vec3.mk 0 0 0) (hn : rec.normal.length_squared = 1) :
    (dielectric.direction Real.sqrt g m r_in rec).length_squared = 1 := by
  have hu : (unit_vector Real.sqrt r_in.direction).length_squared = 1 :=
    length_squared_unit_vector _ (length_squared_pos _ hd)
  have hr : 0 ≤ m.ri rec := by
    unfold dielectric.ri
    split_ifs
    · exact (one_div_pos.mpr hri).le
    · exact hri.le
  simp only [dielectric.direction, dielectric.sin_theta, dielectric.cos_theta,
    Bool.or_eq_true, decide_eq_true_eq]
  split_ifs with hbranch
  · rw [length_squared_reflect _ _ hn, hu]
  · exact length_squared_refract _ _ _ hu hn hr (fun hc => hbranch (Or.inl hc))

/-- The x component of the direction that the dielectric of index -2 computes for the
leaving sample ray seen from inside: the refracted direction, with x component -6/5. -/
lemma dielectric_negative_index_direction_x :
    (dielectric.direction Real.sqrt sample_source (dielectric.mk (-2 : ℝ)) sample_leaving_ray
      sample_hit_inside).x = -(6 / 5) := by
  have huv : unit_vector Real.sqrt (sample_leaving_ray : ray ℝ).direction
      = vec3.mk (3 / 5) 0 (4 / 5) :=
    unit_vector_of_length_squared_one _ (by norm_num [vec3.length_squared, sample_leaving_ray])
  have hcos : dielectric.cos_theta Real.sqrt (sample_leaving_ray : ray ℝ) sample_hit_inside
      = -(4 / 5) := by
    simp only [dielectric.cos_theta, huv]
    norm_num [dot, sample_hit_inside]
  have hri : (dielectric.mk (-2 : ℝ)).ri sample_hit_inside = -2 := by
    simp [dielectric.ri, sample_hit_inside]
  have hcond1 : ¬ ((dielectric.mk (-2 : ℝ)).ri sample_hit_inside
      * dielectric.sin_theta Real.sqrt sample_leaving_ray sample_hit_inside > 1) := by
    rw [hri, dielectric.sin_theta]
    have := Real.sqrt_nonneg (1 - dielectric.cos_theta Real.sqrt (sample_leaving_ray : ray ℝ)
      sample_hit_inside * dielectric.cos_theta Real.sqrt sample_leaving_ray sample_hit_inside)
    linarith
  have hcond2 : ¬ (dielectric.reflectance
      (dielectric.cos_theta Real.sqrt (sample_leaving_ray : ray ℝ) sample_hit_inside)
      ((dielectric.mk (-2 : ℝ)).ri sample_hit_inside) > sample_source.random_double 0) := by
    rw [hri, hcos]
    norm_num [dielectric.reflectance, sample_source]
  have hdir : dielectric.direction Real.sqrt sample_source (dielectric.mk (-2 : ℝ))
      sample_leaving_ray sample_hit_inside
      = refract Real.sqrt (unit_vector Real.sqrt (sample_leaving_ray : ray ℝ).direction)
          (sample_hit_inside : hit_record ℝ).normal
          ((dielectric.mk (-2 : ℝ)).ri sample_hit_inside) := by
    simp only [dielectric.direction, Bool.or_eq_true, decide_eq_true_eq]
    rw [if_neg (not_or.mpr ⟨hcond1, hcond2⟩)]
  rw [hdir, huv, hri]
  simp only [refract, vec3.add_x, vec3.smul_x]
  norm_num [sample_hit_inside]

/-- The normal has to face the incoming ray for the two materials to agree at every index:
for the refraction index -2, the leaving sample ray (which runs along the normal of the
sample hit, against the invariant of the hit record) and the draw 1/2, the dielectric
refracts into a direction with x component -6/5, of length greater than 1, while frosted
glass with roughness 0 and white tint writes a direction of length 1. -/
lemma frosted_glass_smooth_differs_negative_index :
    (dielectric.direction Real.sqrt sample_source (dielectric.mk (-2 : ℝ)) sample_leaving_ray
      sample_hit_inside).x = -(6 / 5) ∧
    ((frosted_glass.mk (-2 : ℝ) 0 (vec3.mk 1 1 1)).scatter Real.sqrt sample_source
      sample_leaving_ray sample_hit_inside
      sample_record).2.skip_pdf_ray.direction.length_squared = 1 ∧
    (frosted_glass.mk (-2 : ℝ) 0 (vec3.mk 1 1 1)).scatter Real.sqrt sample_source
        sample_leaving_ray sample_hit_inside sample_record
      ≠ (dielectric.mk (-2 : ℝ)).scatter Real.sqrt sample_source sample_leaving_ray
          sample_hit_inside sample_record := by
  have hx := dielectric_negative_index_direction_x
  have hn : (sample_hit_inside : hit_record ℝ).normal.length_squared = 1 := by
    norm_num [vec3.length_squared, sample_hit_inside]
  have hlow : 36 / 25 ≤ (dielectric.direction Real.sqrt sample_source (dielectric.mk (-2 : ℝ))
      sample_leaving_ray sample_hit_inside).length_squared := by
    simp only [vec3.length_squared, hx]
    nlinarith [mul_self_nonneg (dielectric.direction Real.sqrt sample_source
        (dielectric.mk (-2 : ℝ)) sample_leaving_ray sample_hit_inside).y,
      mul_self_nonneg (dielectric.direction Real.sqrt sample_source
        (dielectric.mk (-2 : ℝ)) sample_leaving_ray sample_hit_inside).z]
  have hfrosted := frosted_glass_smooth_scatter sample_source sample_source (-2)
    sample_leaving_ray sample_hit_inside sample_record hn rfl
  have hunit : (unit_vector Real.sqrt (dielectric.direction Real.sqrt sample_source
      (dielectric.mk (-2 : ℝ)) sample_leaving_ray sample_hit_inside)).length_squared = 1 :=
    length_squared_unit_vector _ (by linarith)
  refine ⟨hx, ?_, ?_⟩
  · rw [hfrosted]
    exact hunit
  · intro heq
    rw [hfrosted] at heq
    have hdir := congrArg (fun r => r.2.skip_pdf_ray.direction.length_squared) heq
    simp only [dielectric.scatter] at hdir
    rw [hunit] at hdir
    linarith

/-- Over the reals, for a refraction index greater than 0 the two materials agree whichever
way the unit normal points and whatever the draw is. -/
lemma frosted_glass_smooth_positive_index (g_frosted g_dielectric : random_source ℝ)
    (refraction_index : ℝ) (r_in : ray ℝ) (rec : hit_record ℝ) (srec : scatter_record ℝ)
    (hidx : 0 < refraction_index) (hd : r_in.direction ≠ vec3.mk 0 0 0)
    (hn : rec.normal.length_squared = 1)
    (hdraw : g_frosted.random_double 0 = g_dielectric.random_double 0) :
    (frosted_glass.mk refraction_index 0 (vec3.mk 1 1 1)).scatter Real.sqrt g_frosted r_in rec
        srec
      = (dielectric.mk refraction_index).scatter Real.sqrt g_dielectric r_in rec srec := by
  rw [frosted_glass_smooth_scatter g_frosted g_dielectric refraction_index r_in rec srec hn
    hdraw]
  rw [unit_vector_of_length_squared_one _
    (dielectric_direction_length_squared g_dielectric (dielectric.mk refraction_index) r_in rec
      hidx hd hn)]
  rfl

/-- Over the reals, refraction of a unit vector at a unit normal gives a vector of squared
length 1 as soon as the square of `ratio * sin_theta` is at most 1, whatever the sign of
the ratio. -/
lemma length_squared_refract_of_sq_le (uv n : vec3 ℝ) (r : ℝ) (hu : uv.length_squared = 1)
    (hn : n.length_squared = 1) (hsq : r * r * (1 - dot uv n * dot uv n) ≤ 1) :
    (refract Real.sqrt uv n r).length_squared = 1 := by
  have hmin : min (dot (-uv) n) 1 = -dot uv n := by
    rw [min_eq_left (dot_neg_le_one uv n hu hn), dot_neg_left]
  have hperp : (r * (uv + (-dot uv n) * n)).length_squared
      = r * r * (1 - dot uv n * dot uv n) := by
    rw [length_squared_smul, length_squared_add, length_squared_smul, dot_smul_right, hu, hn]
    ring
  have hperp_le : (r * (uv + (-dot uv n) * n)).length_squared ≤ 1 := by
    rw [hperp]
    exact hsq
  have hdotn : dot (r * (uv + (-dot uv n) * n)) n = 0 := by
    rw [dot_smul_left, dot_add_left, dot_smul_left, dot_self, hn]
    ring
  have habs : |1 - (r * (uv + (-dot uv n) * n)).length_squared|
      = 1 - (r * (uv + (-dot uv n) * n)).length_squared :=
    abs_of_nonneg (by linarith)
  have hq := Real.mul_self_sqrt
    (show 0 ≤ 1 - (r * (uv + (-dot uv n) * n)).length_squared by linarith)
  simp only [refract, hmin, habs]
  generalize r * (uv + -dot uv n * n) = P at hperp_le hdotn hq ⊢
  rw [length_squared_add, length_squared_smul, dot_smul_right, hdotn, hn]
  linear_combination hq

/-- A Schlick reflectance below 1 at a cosine in `[0,1]` forces the base reflectance below
1. -/
lemma base_reflectance_lt_one_of_reflectance_lt_one (c r : ℝ) (hc0 : 0 ≤ c) (hc1 : c ≤ 1)
    (hlt : dielectric.reflectance c r < 1) :
    (1 - r) / (1 + r) * ((1 - r) / (1 + r)) < 1 := by
  obtain ⟨ht0, ht1⟩ := one_sub_pow_five_mem c hc0 hc1
  simp only [dielectric.reflectance] at hlt
  by_contra hge
  have hge1 : 1 ≤ (1 - r) / (1 + r) * ((1 - r) / (1 + r)) := not_lt.mp hge
  nlinarith

/-- A base reflectance below 1 means that the ratio is -1 (where the quotient is read as
0) or positive. -/
lemma ratio_of_base_reflectance_lt_one (r : ℝ)
    (hlt : (1 - r) / (1 + r) * ((1 - r) / (1 + r)) < 1) : r = -1 ∨ 0 < r := by
  by_cases hden : 1 + r = 0
  · left
    linarith
  · right
    have hpos : 0 < (1 + r) * (1 + r) := mul_self_pos.mpr hden
    rw [div_mul_div_comm, div_lt_one hpos] at hlt
    nlinarith

/-- Over the reals the direction computed by `dielectric::scatter` has squared length 1 for
every refraction index when the unit normal faces the ray and the draw is below 1: the
refraction is only reached with a ratio that is positive, or equal to -1. -/
lemma dielectric_direction_length_squared_facing (g : random_source ℝ) (m : dielectric ℝ)
    (r_in : ray ℝ) (rec : hit_record ℝ) (hd : r_in.direction ≠ vec3.mk 0 0 0)
    (hn : rec.normal.length_squared = 1)
    (hface : 0 ≤ dot (-(unit_vector Real.sqrt r_in.direction)) rec.normal)
    (hlt : g.random_double 0 < 1) :
    (dielectric.direction Real.sqrt g m r_in rec).length_squared = 1 := by
  have hu : (unit_vector Real.sqrt r_in.direction).length_squared = 1 :=
    length_squared_unit_vector _ (length_squared_pos _ hd)
  have hle : dot (-(unit_vector Real.sqrt r_in.direction)) rec.normal ≤ 1 :=
    dot_neg_le_one _ _ hu hn
  have hcos : dielectric.cos_theta Real.sqrt r_in rec
      = dot (-(unit_vector Real.sqrt r_in.direction)) rec.normal := by
    rw [dielectric.cos_theta]
    exact min_eq_left hle
  have hcs := dot_mul_self_le_one (unit_vector Real.sqrt r_in.direction) rec.normal hu hn
  have hneg : dot (-(unit_vector Real.sqrt r_in.direction)) rec.normal
      = -dot (unit_vector Real.sqrt r_in.direction) rec.normal := dot_neg_left _ _
  simp only [dielectric.direction, Bool.or_eq_true, decide_eq_true_eq]
  split_ifs with hbranch
  · rw [length_squared_reflect _ _ hn, hu]
  · have hcan : m.ri rec * dielectric.sin_theta Real.sqrt r_in rec ≤ 1 :=
      not_lt.mp (fun hc => hbranch (Or.inl hc))
    have hrefl : dielectric.reflectance (dielectric.cos_theta Real.sqrt r_in rec) (m.ri rec)
        < 1 :=
      lt_of_le_of_lt (not_lt.mp (fun hc => hbranch (Or.inr hc))) hlt
    rw [hcos] at hrefl
    have hratio := ratio_of_base_reflectance_lt_one _
      (base_reflectance_lt_one_of_reflectance_lt_one _ _ hface hle hrefl)
    apply length_squared_refract_of_sq_le _ _ _ hu hn
    rcases hratio with hminus | hpos
    · rw [hminus]
      nlinarith [mul_self_nonneg (dot (unit_vector Real.sqrt r_in.direction) rec.normal)]
    · have harg : 0 ≤ 1 - dielectric.cos_theta Real.sqrt r_in rec
          * dielectric.cos_theta Real.sqrt r_in rec := by
        rw [hcos, hneg]
        nlinarith
      have hss := Real.mul_self_sqrt harg
      have hsn := Real.sqrt_nonneg (1 - dielectric.cos_theta Real.sqrt r_in rec
        * dielectric.cos_theta Real.sqrt r_in rec)
      rw [dielectric.sin_theta] at hcan
      have hprod : 0 ≤ m.ri rec * Real.sqrt (1 - dielectric.cos_theta Real.sqrt r_in rec
          * dielectric.cos_theta Real.sqrt r_in rec) := mul_nonneg hpos.le hsn
      have hsquare : (m.ri rec * Real.sqrt (1 - dielectric.cos_theta Real.sqrt r_in rec
          * dielectric.cos_theta Real.sqrt r_in rec))
          * (m.ri rec * Real.sqrt (1 - dielectric.cos_theta Real.sqrt r_in rec
          * dielectric.cos_theta Real.sqrt r_in rec)) ≤ 1 := by nlinarith
      have hexpand : (m.ri rec * Real.sqrt (1 - dielectric.cos_theta Real.sqrt r_in rec
          * dielectric.cos_theta Real.sqrt r_in rec))
          * (m.ri rec * Real.sqrt (1 - dielectric.cos_theta Real.sqrt r_in rec
          * dielectric.cos_theta Real.sqrt r_in rec))
          = m.ri rec * m.ri rec * (1 - dielectric.cos_theta Real.sqrt r_in rec
            * dielectric.cos_theta Real.sqrt r_in rec) := by
        rw [mul_mul_mul_comm, hss]
      rw [hexpand, hcos, hneg] at hsquare
      linarith

/-- C17: over the reals, for every refraction index, every hit record whose unit normal
faces the incoming ray (the invariant of the hit record), every incoming ray whose
direction is not zero and every random draws that agree on the uniform draw, below 1, of
the reflect/refract decision: `frosted_glass(refraction_index, 0, (1,1,1)).scatter`
produces the same return value and the same record (attenuation, `pdf_ptr`, `skip_pdf`,
`skip_pdf_ray`) as `dielectric(refraction_index).scatter`. -/
theorem frosted_glass_smooth_refines_dielectric (g_frosted g_dielectric : random_source ℝ)
    (refraction_index : ℝ) (r_in : ray ℝ) (rec : hit_record ℝ) (srec : scatter_record ℝ)
    (hd : r_in.direction ≠ vec3.mk 0 0 0) (hn : rec.normal.length_squared = 1)
    (hface : 0 ≤ dot (-(unit_vector Real.sqrt r_in.direction)) rec.normal)
    (hdraw : g_frosted.random_double 0 = g_dielectric.random_double 0)
    (hlt : g_dielectric.random_double 0 < 1) :
    (frosted_glass.mk refraction_index 0 (vec3.mk 1 1 1)).scatter Real.sqrt g_frosted r_in rec
        srec
      = (dielectric.mk refraction_index).scatter Real.sqrt g_dielectric r_in rec srec := by
  rw [frosted_glass_smooth_scatter g_frosted g_dielectric refraction_index r_in rec srec hn
    hdraw]
  rw [unit_vector_of_length_squared_one _
    (dielectric_direction_length_squared_facing g_dielectric (dielectric.mk refraction_index)
      r_in rec hd hn hface hlt)]
  rfl

/-- Witness for C17: the refraction index -2 and the sample ray falling on the sample hit
along its normal, the frosted glass drawing from the sample source and the dielectric from
a source with other unit vectors and the same doubles. -/
theorem frosted_glass_smooth_refines_dielectric_witness :
    (frosted_glass.mk (-2 : ℝ) 0 (vec3.mk 1 1 1)).scatter Real.sqrt sample_source sample_ray
        sample_hit sample_record
      = (dielectric.mk (-2 : ℝ)).scatter Real.sqrt
          (random_source.mk (fun _ => 1 / 2) (fun _ => vec3.mk 0 1 0)) sample_ray sample_hit
          sample_record :=
  frosted_glass_smooth_refines_dielectric sample_source
    (random_source.mk (fun _ => 1 / 2) (fun _ => vec3.mk 0 1 0)) (-2) sample_ray sample_hit
    sample_record
    (by
      intro h
      have hz := congrArg vec3.z h
      norm_num [sample_ray] at hz)
    (by norm_num [vec3.length_squared, sample_hit])
    (by
      rw [unit_vector_sample_ray]
      norm_num [dot, sample_hit])
    rfl
    (by norm_num)

end SmoothFrosted

end RayTracer
